import Mathlib

/-!
# Debbie: selection and field-configuration model of `src/web/app.js`

A shallow embedding of the state-carrying part of the page script, in two
layers.

The first layer is the variables of the script: the selection set, the list of
saved field configurations, the two inputs of the save dialog, the
notifications raised and the configured-fields list, with the functions
`handleSelection`, `addToSelection`, `removeFromSelection`, `clearSelection`,
`updateSelectionUI`, `preventPipeCharacter`, `generateVariableSuggestion`,
`saveConfiguration` and `updateConfiguredListUI`. It says what these functions
do to the variables when every call on the document runs to its end.
`saveConfigurationWith` is `saveConfiguration` with the `sort` of the engine as
an argument; `saveConfiguration` itself sorts by straight insertion.

The second layer (`Page`) adds the rendered document and the class lists of
its elements, and the `TypeError` that stops a handler: `highlightColumn`,
`addToSelection`, `removeFromSelection`, `clearSelection`, `handleSelection`,
`handleColumnSelection` and `selectCurrentColumn` there return an `Outcome`.
`saveConfiguration` is there as well. A handler of the second layer that
runs to its end leaves the variables as the first layer says
(`handleSelection_state`, `saveConfiguration_on_page`); it is stopped only
where the rows of a column are looked up under an id that an element other
than a table has, where a column has no button, or where the grouping of the
configured list meets a key that the grouping object inherits.

Conventions of the embedding.

* A JavaScript string is the list of its characters (`JsString`).
* `selectedElements` (a `Set`) is its list of members in insertion order,
  which is the order `Array.from` and `forEach` see.
* `configuredSelections` (an array of objects) is a list of records.
* Numbers that the script handles (array indices, parsed column indices,
  parsed name suffixes, the millisecond clock) are integers, embedded as
  `Nat` / `Int`. `parseInt` gives the Number value of the integer it reads
  (`roundToDouble`), which is that integer below `2 ^ 53`; a difference of two
  Numbers is embedded as the difference of the integers, which has the sign of
  the Number that JavaScript computes (`NaN`, from two infinities, counting as
  0). Indices, counts and the clock stay below `2 ^ 53`, and the text of a
  number is its decimal numeral, as in JavaScript for such integers.
* `Date.now()` is an argument of the function that reads it.
* An element of the document is named by its place (`Node`); its class list is
  the set of pairs of the element and a class name in `ClassLists`.
-/

namespace Debbie

/-- A JavaScript string value. -/
abbrev JsString := List Char

/-! ## String primitives of the host language -/

/-- The test `s.includes(sub)`. -/
def includes : JsString → JsString → Bool
  | [], sub => sub.isEmpty
  | c :: cs, sub => sub.isPrefixOf (c :: cs) || includes cs sub

/-- Worker of `jsSplit`: `skip` counts characters of a separator occurrence
still to be dropped, `cur` holds the current piece reversed. The separator is
not empty. -/
def splitGo (sep : JsString) : JsString → Nat → JsString → List JsString
  | [], _, cur => [cur.reverse]
  | _ :: cs, skip + 1, cur => splitGo sep cs skip cur
  | c :: cs, 0, cur =>
    if sep.isPrefixOf (c :: cs) then cur.reverse :: splitGo sep cs (sep.length - 1) []
    else splitGo sep cs 0 (c :: cur)

/-- The call `s.split(sep)` for a non-empty separator. -/
def jsSplit (s sep : JsString) : List JsString := splitGo sep s 0 []

/-- White space and line terminators, the characters `trim` and `parseInt` strip. -/
def isWhiteSpace (c : Char) : Bool :=
  let n := c.toNat
  n == 9 || n == 10 || n == 11 || n == 12 || n == 13 || n == 32 || n == 160 ||
  n == 5760 || (8192 ≤ n && n ≤ 8202) || n == 8232 || n == 8233 || n == 8239 ||
  n == 8287 || n == 12288 || n == 65279

/-- The call `s.trim()`. -/
def trim (s : JsString) : JsString :=
  ((s.dropWhile isWhiteSpace).reverse.dropWhile isWhiteSpace).reverse

/-- Value of a character as a digit, up to radix 36. -/
def digitVal (c : Char) : Option Nat :=
  let n := c.toNat
  if 48 ≤ n ∧ n ≤ 57 then some (n - 48)
  else if 97 ≤ n ∧ n ≤ 122 then some (n - 87)
  else if 65 ≤ n ∧ n ≤ 90 then some (n - 55)
  else none

/-- Whether `c` is a digit of the given radix. -/
def isDigitIn (radix : Nat) (c : Char) : Bool :=
  match digitVal c with
  | some d => decide (d < radix)
  | none => false

/-- Value of a run of digits, most significant first. -/
def digitsValue (radix : Nat) (ds : JsString) : Nat :=
  ds.foldl (fun acc c => acc * radix + (digitVal c).getD 0) 0

/-- Number of binary digits of `n`; `fuel ≥ n` is enough. -/
def bitLength : Nat → Nat → Nat
  | 0, _ => 0
  | fuel + 1, n => if n = 0 then 0 else bitLength fuel (n / 2) + 1

/-- The Number value of a non-negative integer: the integer itself below
`2 ^ 53`; from there on the nearest integer whose binary numeral has at most 53
significant digits, the one with an even 53rd digit when two are equally near;
and `2 ^ 1024`, which stands for `Infinity`, when that is the nearest. -/
def roundToDouble (n : Nat) : Nat :=
  if n < 9007199254740992 then n
  else
    let shift := bitLength n n - 53
    let q := n / 2 ^ shift
    let r := n % 2 ^ shift
    let half := 2 ^ (shift - 1)
    let q1 := if half < r ∨ (r = half ∧ q % 2 = 1) then q + 1 else q
    let rounded := q1 * 2 ^ shift
    if bitLength rounded rounded ≤ 1024 then rounded else 2 ^ 1024

/-- The call `parseInt(s)` with no radix argument; `none` stands for `NaN`.
Leading white space is skipped, then a sign, then a `0x` or `0X` prefix (which
selects radix 16), and the longest run of digits of the radix is read; the
result is the Number value of the integer read. (For a decimal numeral of more
than 20 significant digits the language lets an engine round less exactly.) -/
def parseInt (s : JsString) : Option Int :=
  let t := s.dropWhile isWhiteSpace
  let negative := t.head? == some '-'
  let t1 := if t.head? == some '-' || t.head? == some '+' then t.tail else t
  let hex := ['0', 'x'].isPrefixOf t1 || ['0', 'X'].isPrefixOf t1
  let radix := if hex then 16 else 10
  let t2 := if hex then t1.drop 2 else t1
  let ds := t2.takeWhile (isDigitIn radix)
  if ds.isEmpty then none
  else if negative then some (-(roundToDouble (digitsValue radix ds) : Int))
  else some (roundToDouble (digitsValue radix ds) : Int)

/-- Digits of `n` in base `b`, least significant first; `fuel ≥ n` is enough
for `b ≥ 2`. -/
def digitsLE (b : Nat) : Nat → Nat → List Nat
  | 0, _ => []
  | fuel + 1, n => if n = 0 then [] else n % b :: digitsLE b fuel (n / b)

/-- The character of a digit value below 36 (lower case, as `toString` prints). -/
def digitChar (d : Nat) : Char :=
  if d < 10 then Char.ofNat (48 + d) else Char.ofNat (87 + d)

/-- The call `n.toString(radix)` for a non-negative integer `n`; with
`radix = 10` this is also the text a template literal inserts for `n`. -/
def numberToString (radix n : Nat) : JsString :=
  if n = 0 then ['0'] else (digitsLE radix n n).reverse.map digitChar

/-! ## `Array.prototype.sort`

The language requires `sort` to be stable and to return the elements it was
given; it leaves their order to the engine when the comparator is not a
consistent one, and the comparator of `saveConfiguration` is not. Engines then
differ: the selection `t_0_col_2`, `t_0_col_1`, `p_0`, `t_0_col_0` comes out of
the straight insertion sort as `t_0_col_1`, `t_0_col_2`, `p_0`, `t_0_col_0` and
out of a binary insertion sort, which compares `t_0_col_0` with `t_0_col_2`
before anything else, as `t_0_col_0`, `t_0_col_1`, `t_0_col_2`, `p_0`.

`arraySort` is the straight insertion sort: each element in turn moves left
past every neighbour `y` with `cmp(y, x) > 0` and stops at the first neighbour
that is not greater. A comparator result of `NaN` counts as `0`. With a
consistent comparator it returns what the language requires of every engine.
Where a statement is to hold whatever the engine does, `sort` is an argument
(`saveConfigurationWith`) of which only this is assumed: it returns a
permutation of the array. -/

/-- Insert `x` at the right end of a sorted prefix that is given reversed. -/
def insertLeftward {α : Type} (cmp : α → α → Int) (x : α) : List α → List α
  | [] => [x]
  | y :: ys => if cmp y x > 0 then y :: insertLeftward cmp x ys else x :: y :: ys

/-- Worker of `arraySort`: `acc` is the sorted prefix, reversed. -/
def sortGo {α : Type} (cmp : α → α → Int) : List α → List α → List α
  | acc, [] => acc
  | acc, x :: xs => sortGo cmp (insertLeftward cmp x acc) xs

/-- The call `arr.sort(cmp)`. -/
def arraySort {α : Type} (cmp : α → α → Int) (arr : List α) : List α :=
  (sortGo cmp [] arr).reverse

/-! ## Application state -/

/-- One element of `configuredSelections`. -/
structure FieldConfiguration where
  id : JsString
  variable_name : JsString
  description : JsString
  group_id : JsString
  deriving DecidableEq, Repr

/-- The argument of `showToast`, as far as the script sets it. -/
structure Toast where
  title : JsString
  message : JsString
  type : JsString
  duration : Nat
  deriving DecidableEq, Repr

/-- One child that `updateConfiguredListUI` appends to the configured list, by
the strings that the template of its `innerHTML` inserts: into the heading,
into the badge, into the `Vars:` line (grouped items only) and as the
description (`none` where the placeholder markup is inserted). How the browser
reads markup inside these strings is not part of the embedding. -/
structure ConfiguredItem where
  heading : JsString
  badge : JsString
  vars : Option JsString
  description : Option JsString
  deriving DecidableEq, Repr

/-- The module-level variables of the script together with the values of the
two inputs of the save dialog, the notifications raised so far and the children
of the configured-fields list. -/
structure State where
  selectedElements : List JsString
  configuredSelections : List FieldConfiguration
  modalVarName : JsString
  modalContext : JsString
  toasts : List Toast
  configuredList : List ConfiguredItem
  deriving DecidableEq, Repr

/-- The state when the script has loaded. -/
def State.init : State :=
  { selectedElements := [], configuredSelections := [], modalVarName := [],
    modalContext := [], toasts := [], configuredList := [] }

/-- The call `showToast(options)`: the notification is raised. -/
def showToast (s : State) (t : Toast) : State :=
  { s with toasts := s.toasts ++ [t] }

/-! ## Selection logic -/

/-- What `addToSelection(id)` does to the variables, `selectedElements.add(id)`: a
member keeps its place. -/
def addToSelection (s : State) (id : JsString) : State :=
  if id ∈ s.selectedElements then s
  else { s with selectedElements := s.selectedElements ++ [id] }

/-- What `removeFromSelection(id)` does to the variables, `selectedElements.delete(id)`. -/
def removeFromSelection (s : State) (id : JsString) : State :=
  { s with selectedElements := s.selectedElements.filter (fun x => x != id) }

/-- What `clearSelection()` does to the variables: the set is emptied. -/
def clearSelection (s : State) : State :=
  { s with selectedElements := [] }

/-- What `updateSelectionUI()` does to the variables: both inputs of the dialog
are emptied. -/
def updateSelectionUI (s : State) : State :=
  { s with modalVarName := [], modalContext := [] }

/-- What `handleSelection(e, id)` does to the variables, with
`isCtrl = e.ctrlKey || e.metaKey`. -/
def handleSelection (s : State) (isCtrl : Bool) (id : JsString) : State :=
  let s1 :=
    if isCtrl then
      if id ∈ s.selectedElements then removeFromSelection s id
      else addToSelection s id
    else addToSelection (clearSelection s) id
  updateSelectionUI s1

/-! ## The save dialog -/

/-- The handler `preventPipeCharacter(event)`: whether the key press is cancelled. -/
def preventPipeCharacter (key : JsString) : Bool :=
  key == ['|']

/-- The part of `generateVariableSuggestion` that runs when the response has
arrived: `suggestion` is `data.suggestion || ''`. -/
def generateVariableSuggestion (s : State) (suggestion : JsString) : State :=
  if suggestion ≠ [] then { s with modalVarName := suggestion }
  else showToast s
    { title := "No Suggestion".toList,
      message := "No suggestion generated. Please enter a variable name manually.".toList,
      type := "info".toList, duration := 3000 }

/-- The text after the first `_col_` of an id, parsed: `parseInt(a.split('_col_')[1])`. -/
def colIdxOf (a : JsString) : Option Int :=
  match (jsSplit a "_col_".toList)[1]? with
  | some p => parseInt p
  | none => none

/-- The comparator that `saveConfiguration` passes to `sort`. -/
def selectionCompare (a b : JsString) : Int :=
  let aIsCol := includes a "_col_".toList
  let bIsCol := includes b "_col_".toList
  if aIsCol && bIsCol then
    match colIdxOf a, colIdxOf b with
    | some aColIdx, some bColIdx => aColIdx - bColIdx
    | _, _ => 0
  else 0

/-- The name given to the element at `index` of a selection array of length `len`. -/
def uniqueVarName (varName : JsString) (len index : Nat) : JsString :=
  if len > 1 then varName ++ "||".toList ++ numberToString 10 (index + 1) else varName

/-- The store part of one round of the `forEach` of `saveConfiguration`: the
first entry with this id, if any, is spliced out and the new entry is pushed. -/
def saveOne (varName context groupId : JsString) (len : Nat)
    (store : List FieldConfiguration) (id : JsString) (index : Nat) : List FieldConfiguration :=
  let store1 :=
    match store.findIdx? (fun c => c.id == id) with
    | some existingIdx => store.eraseIdx existingIdx
    | none => store
  store1 ++ [{ id := id, variable_name := uniqueVarName varName len index,
               description := context, group_id := groupId }]

/-- The `forEach` of `saveConfiguration` from position `index` on. -/
def saveEach (varName context groupId : JsString) (len : Nat) :
    Nat → List JsString → List FieldConfiguration → List FieldConfiguration
  | _, [], store => store
  | index, id :: rest, store =>
    saveEach varName context groupId len (index + 1) rest
      (saveOne varName context groupId len store id index)

/-! ## The configured-fields list -/

/-- The key an entry is grouped under: `s.group_id || s.id`. -/
def groupKey (c : FieldConfiguration) : JsString :=
  if c.group_id ≠ [] then c.group_id else c.id

/-- One round of the grouping `forEach` for a key that `grouped` does not
inherit: `grouped` holds the own properties of the object in creation order. -/
def groupedPush (grouped : List (JsString × List FieldConfiguration))
    (c : FieldConfiguration) : List (JsString × List FieldConfiguration) :=
  match grouped with
  | [] => [(groupKey c, [c])]
  | (k, g) :: rest =>
    if k = groupKey c then (k, g ++ [c]) :: rest else (k, g) :: groupedPush rest c

/-- Whether a property key is an array index (a canonical numeral below `2^32 - 1`). -/
def isArrayIndex (k : JsString) : Bool :=
  k.all (isDigitIn 10) && numberToString 10 (digitsValue 10 k) == k &&
    decide (digitsValue 10 k < 4294967295)

/-- The call `Object.keys(grouped)`: array-index keys in ascending numeric
order, then the other keys in creation order. -/
def objectKeys (grouped : List (JsString × List FieldConfiguration)) : List JsString :=
  let ks := grouped.map Prod.fst
  arraySort (fun a b => (digitsValue 10 a : Int) - (digitsValue 10 b : Int))
      (ks.filter isArrayIndex) ++
    ks.filter (fun k => !isArrayIndex k)

/-- The first capture of `/\|\|(\d+)$/` in a name, if the pattern matches. -/
def suffixMatch (name : JsString) : Option JsString :=
  let ds := (name.reverse.takeWhile (isDigitIn 10)).reverse
  match name.reverse.dropWhile (isDigitIn 10) with
  | '|' :: '|' :: _ => if ds.isEmpty then none else some ds
  | _ => none

/-- The number `parseInt(name.match(/\|\|(\d+)$/)?.[1] || 0)`. -/
def suffixNum (name : JsString) : Option Int :=
  match suffixMatch name with
  | some ds => parseInt ds
  | none => some 0

/-- The comparator that `updateConfiguredListUI` passes to `sort`. -/
def groupCompare (a b : FieldConfiguration) : Int :=
  match suffixNum a.variable_name, suffixNum b.variable_name with
  | some aNum, some bNum => aNum - bNum
  | _, _ => 0

/-- The call `name.replace(/\|\|\d+$/, '')`. -/
def stripSuffix (name : JsString) : JsString :=
  match suffixMatch name with
  | some ds => name.take (name.length - (ds.length + 2))
  | none => name

/-- The object `grouped` after a grouping `forEach` that no inherited key has
stopped. -/
def groupEntries (store : List FieldConfiguration) : List (JsString × List FieldConfiguration) :=
  store.foldl groupedPush []

/-- The names of the properties that the object `grouped = {}` inherits from
`Object.prototype`. What is read under each of them is a function or an
object, which is not falsy and has no `push`. -/
def inheritedKeys : List JsString :=
  ["constructor".toList, "__defineGetter__".toList, "__defineSetter__".toList,
   "hasOwnProperty".toList, "__lookupGetter__".toList, "__lookupSetter__".toList,
   "isPrototypeOf".toList, "propertyIsEnumerable".toList, "toString".toList,
   "valueOf".toList, "__proto__".toList, "toLocaleString".toList]

/-- The grouping `forEach` over the entries still to visit, `none` when it is
stopped: under an inherited key `grouped[groupKey]` is not falsy, so no array
is put there, and calling `push` on what is read is a `TypeError`. -/
def groupEach : List FieldConfiguration → List (JsString × List FieldConfiguration) →
    Option (List (JsString × List FieldConfiguration))
  | [], grouped => some grouped
  | c :: rest, grouped =>
    if groupKey c ∈ inheritedKeys then none else groupEach rest (groupedPush grouped c)

/-- The array `grouped[groupKey]` as the loop body leaves it: sorted when it
has more than one member. -/
def sortedGroup (group : List FieldConfiguration) : List FieldConfiguration :=
  if group.length > 1 then arraySort groupCompare group else group

/-- The groups in the order `updateConfiguredListUI` walks them, each with its
key and its members in displayed order, when no inherited key has stopped the
grouping. -/
def groupedView (store : List FieldConfiguration) : List (JsString × List FieldConfiguration) :=
  let grouped := groupEntries store
  (objectKeys grouped).filterMap (fun k =>
    (grouped.lookup k).map (fun group => (k, sortedGroup group)))

/-- The grouped view that `updateConfiguredListUI` builds from a store: the
groups in the order they are walked, each with its key and its members in
displayed order; `none` when the grouping is stopped by the `TypeError`, in
which case nothing is walked. -/
def groupedViewBuilt (store : List FieldConfiguration) :
    Option (List (JsString × List FieldConfiguration)) :=
  (groupEach store []).map (fun grouped =>
    (objectKeys grouped).filterMap (fun k =>
      (grouped.lookup k).map (fun group => (k, sortedGroup group))))

/-- The item built for one group. -/
def renderGroup (group : List FieldConfiguration) : ConfiguredItem :=
  let count := group.length
  let first := (group.head?).getD
    { id := [], variable_name := [], description := [], group_id := [] }
  let baseName := stripSuffix first.variable_name
  let description := if first.description ≠ [] then some first.description else none
  if count > 1 then
    { heading := baseName ++ " (".toList ++ numberToString 10 count ++ " fields)".toList,
      badge := "Grouped".toList,
      vars := some (", ".toList.intercalate (group.map (fun g => g.variable_name))),
      description := description }
  else
    { heading := first.variable_name,
      badge := numberToString 10 count ++ " el".toList,
      vars := none,
      description := description }

/-- What `updateConfiguredListUI()` does to the variables: the children of the
configured list are rebuilt from the store (none but the placeholder when the
store is empty). When the grouping is stopped the list has been emptied and no
child has been appended. -/
def updateConfiguredListUI (s : State) : State :=
  match groupedViewBuilt s.configuredSelections with
  | some view => { s with configuredList := view.map (fun kg => renderGroup kg.2) }
  | none => { s with configuredList := [] }

/-- What `saveConfiguration()` does to the variables when `Date.now()` reads
`now` and `sort` is the `Array.prototype.sort` of the engine. The `TypeError`
that stops the grouping of `updateConfiguredListUI` ends the call there: the
selection and the two inputs stay as they are. -/
def saveConfigurationWith (sort : (JsString → JsString → Int) → List JsString → List JsString)
    (s : State) (now : Nat) : State :=
  let varName := trim s.modalVarName
  let context := trim s.modalContext
  if varName = [] then
    showToast s
      { title := "Required Field".toList, message := "Variable Name is required.".toList,
        type := "warning".toList, duration := 3000 }
  else
    let groupId := numberToString 36 now
    let selectionArray := sort selectionCompare s.selectedElements
    let store := saveEach varName context groupId selectionArray.length 0 selectionArray
      s.configuredSelections
    let listed := updateConfiguredListUI { s with configuredSelections := store }
    if (groupedViewBuilt store).isNone then listed
    else updateSelectionUI (clearSelection listed)

/-- The call `saveConfiguration()` when `Date.now()` reads `now`, on an engine
that sorts as `arraySort` does. -/
def saveConfiguration (s : State) (now : Nat) : State :=
  saveConfigurationWith arraySort s now

/-! ## Runs of saves -/

/-- What one use of the save dialog supplies: the selection made, the text of
the two inputs, and the clock reading at the moment of saving. -/
structure SaveCall where
  selection : List JsString
  name : JsString
  context : JsString
  now : Nat
  deriving DecidableEq, Repr

/-- The state after the selection and the two inputs have been set as in
`call` and `saveConfiguration()` has run. -/
def applySave (s : State) (call : SaveCall) : State :=
  saveConfiguration
    { s with selectedElements := call.selection, modalVarName := call.name,
             modalContext := call.context } call.now

/-- The state after a sequence of saves, starting from the state at load. -/
def runSaves (calls : List SaveCall) : State :=
  calls.foldl applySave State.init

/-- The configurations a save creates: what it leaves in an empty store. -/
def createdBy (call : SaveCall) : List FieldConfiguration :=
  (applySave State.init call).configuredSelections

/-! ## The suffix of a name, in the words of the specification -/

/-- Reference reading of "the integer that follows the final `||` of the
name, a name without such a suffix counting as 0": the name is scanned for a
`||` after which nothing but decimal digits, and at least one, follow up to the
end; their value is the result, and 0 if there is no such place. -/
def suffixInteger : JsString → Nat
  | [] => 0
  | c :: cs =>
    if c = '|' ∧ cs.head? = some '|' ∧ cs.tail ≠ [] ∧ cs.tail.all (isDigitIn 10) = true then
      digitsValue 10 cs.tail
    else suffixInteger cs

/-! ## The rendered document

`renderDocument(structure)` gives every paragraph a `div` with the id of the
paragraph, every table a `table` with the id of the table, every cell a `td`
with the id of the cell, and every cell of the first row a column button with
the id `<table id>_colbtn_<column>`; the button does not stay in a cell that
has `has_checkbox` set and no paragraphs, where the content is then written by
an assignment to `td.innerHTML`. No other element under the document view has
an id. The ids of the page around the document view are taken not to occur
among these. -/

/-- A table of `documentStructure.tables`: its id, row by row the ids of its
cells, and the columns at which the cell of the first row has `has_checkbox`
set and no paragraphs. -/
structure DocTable where
  id : JsString
  rows : List (List JsString)
  checkboxOnly : List Nat := []
  deriving DecidableEq, Repr

/-- The object `documentStructure`, as far as the ids of elements go. -/
structure Document where
  paragraphs : List JsString
  tables : List DocTable
  deriving DecidableEq, Repr

/-- An element that `renderDocument` has created, by its place: a paragraph
`div`, a `table`, the `td` at a row and column of a table, or the column button
in a cell of the first row. -/
inductive Node where
  | paragraph (index : Nat)
  | table (t : Nat)
  | cell (t r c : Nat)
  | colBtn (t c : Nat)
  deriving DecidableEq, Repr

/-- The text a template literal inserts for a number that is an integer of
magnitude below `2 ^ 53` or `NaN` (`none`): the decimal numeral. -/
def numberText : Option Int → JsString
  | none => "NaN".toList
  | some (Int.ofNat n) => numberToString 10 n
  | some (Int.negSucc n) => '-' :: numberToString 10 (n + 1)

/-- The id `${tableId}_colbtn_${colIdx}` written with the text of the column. -/
def colBtnId (tableId colText : JsString) : JsString :=
  tableId ++ "_colbtn_".toList ++ colText

/-- The id `${tableId}_col_${colIdx}` of a column selection. -/
def colIdOf (tableId : JsString) (colIdx : Option Int) : JsString :=
  tableId ++ "_col_".toList ++ numberText colIdx

/-- The elements with an id that one row contributes, in document order, from
column `c` on: each `td`, followed in the first row by its column button
unless the column is one of `checkboxOnly`, where the assignment to
`td.innerHTML` has removed the button appended before. -/
def rowNodes (tableId : JsString) (checkboxOnly : List Nat) (t r : Nat) :
    Nat → List JsString → List (JsString × Node)
  | _, [] => []
  | c, cellId :: rest =>
    (cellId, Node.cell t r c) ::
      ((if r = 0 ∧ c ∉ checkboxOnly then
          [(colBtnId tableId (numberToString 10 c), Node.colBtn t c)]
        else []) ++
        rowNodes tableId checkboxOnly t r (c + 1) rest)

/-- The elements with an id of the rows of one table, from row `r` on. -/
def rowsNodes (tableId : JsString) (checkboxOnly : List Nat) (t : Nat) :
    Nat → List (List JsString) → List (JsString × Node)
  | _, [] => []
  | r, row :: rest =>
    rowNodes tableId checkboxOnly t r 0 row ++ rowsNodes tableId checkboxOnly t (r + 1) rest

/-- The elements with an id of the tables, from table `t` on. -/
def tablesNodes : Nat → List DocTable → List (JsString × Node)
  | _, [] => []
  | t, table :: rest =>
    (table.id, Node.table t) ::
      rowsNodes table.id table.checkboxOnly t 0 table.rows ++ tablesNodes (t + 1) rest

/-- All elements with an id under the document view, in document order: the
paragraphs, then table by table. -/
def documentNodes (doc : Document) : List (JsString × Node) :=
  doc.paragraphs.enum.map (fun p => (p.2, Node.paragraph p.1)) ++ tablesNodes 0 doc.tables

/-- The call `document.getElementById(id)`: the first element in document
order with this id, `none` for `null`. An element whose `id` is the empty
string has no id, and the empty string finds nothing. -/
def getElementById (doc : Document) (id : JsString) : Option Node :=
  if id = [] then none
  else ((documentNodes doc).find? (fun n => n.1 == id)).map (fun n => n.2)

/-- The class lists of the elements, as the pairs of an element and a class
name it carries. Only the classes that the script adds and removes are kept. -/
abbrev ClassLists := List (Node × JsString)

/-- The call `el.classList.add(cls)`. -/
def classListAdd (cl : ClassLists) (el : Node) (cls : JsString) : ClassLists :=
  if (el, cls) ∈ cl then cl else cl ++ [(el, cls)]

/-- The call `el.classList.remove(cls)`. -/
def classListRemove (cl : ClassLists) (el : Node) (cls : JsString) : ClassLists :=
  cl.filter (fun m => m != (el, cls))

/-- The test `el.classList.contains(cls)`. -/
def hasClass (cl : ClassLists) (el : Node) (cls : JsString) : Bool :=
  decide ((el, cls) ∈ cl)

/-- The access `row.cells[colIdx]`, as the column of the cell found. An array
index reads the cell at that place, if the row is that long; any other key
(`NaN`, a negative number, a number from `2^32 - 1` on) is a name and reads the
first cell of the row whose id is the text of the key. -/
def cellAt (row : List JsString) (colIdx : Option Int) : Option Nat :=
  match colIdx with
  | some (Int.ofNat c) =>
    if c < 4294967295 then (if c < row.length then some c else none)
    else row.findIdx? (fun cellId => cellId == numberText colIdx)
  | _ => row.findIdx? (fun cellId => cellId == numberText colIdx)

/-- The page: the variables of the script, the document that has been
rendered, and the class lists of its elements. -/
structure Page where
  state : State
  document : Document
  classes : ClassLists
  deriving DecidableEq, Repr

/-- How a handler ends: it runs to its end, or an uncaught `TypeError` stops
it and the page is left as it was at that moment. -/
inductive Outcome where
  | done (page : Page)
  | typeError (page : Page)
  deriving DecidableEq, Repr

/-- The page a handler leaves behind. -/
def Outcome.page : Outcome → Page
  | Outcome.done p => p
  | Outcome.typeError p => p

/-- Whether the handler was stopped by a `TypeError`. -/
def Outcome.threw : Outcome → Bool
  | Outcome.done _ => false
  | Outcome.typeError _ => true

/-- The page after `renderDocument(structure)`, nothing selected. -/
def Page.init (doc : Document) : Page :=
  { state := State.init, document := doc, classes := [] }

/-- The loop of `highlightColumn` over the rows of table `t`, from row `r` on. -/
def highlightRows (t : Nat) (colIdx : Option Int) (active : Bool) :
    Nat → List (List JsString) → ClassLists → ClassLists
  | _, [], cl => cl
  | r, row :: rest, cl =>
    highlightRows t colIdx active (r + 1) rest
      (match cellAt row colIdx with
        | some c =>
          if active then classListAdd cl (Node.cell t r c) "selected".toList
          else classListRemove cl (Node.cell t r c) "selected".toList
        | none => cl)

/-- The call `highlightColumn(tableId, colIdx, active)`. Nothing happens when
no element has the id; an element that is not a table has no `rows`, and
reading `table.rows.length` is a `TypeError`. -/
def Page.highlightColumn (p : Page) (tableId : JsString) (colIdx : Option Int)
    (active : Bool) : Outcome :=
  match getElementById p.document tableId with
  | none => Outcome.done p
  | some (Node.table t) =>
    let rows := (p.document.tables[t]?).elim [] (fun tb => tb.rows)
    Outcome.done { p with classes := highlightRows t colIdx active 0 rows p.classes }
  | some _ => Outcome.typeError p

/-- The call `addToSelection(id)`. -/
def Page.addToSelection (p : Page) (id : JsString) : Page :=
  { p with
    state := Debbie.addToSelection p.state id,
    classes :=
      match getElementById p.document id with
      | some el => classListAdd p.classes el "selected".toList
      | none => p.classes }

/-- The call `removeFromSelection(id)`. -/
def Page.removeFromSelection (p : Page) (id : JsString) : Page :=
  { p with
    state := Debbie.removeFromSelection p.state id,
    classes :=
      match getElementById p.document id with
      | some el => classListRemove p.classes el "selected".toList
      | none => p.classes }

/-- The `forEach` of `clearSelection` over the members still to visit. -/
def clearEach (p : Page) : List JsString → Outcome
  | [] => Outcome.done p
  | id :: rest =>
    if includes id "_col_".toList then
      let parts := jsSplit id "_col_".toList
      let tableId := (parts[0]?).getD "undefined".toList
      let colText := (parts[1]?).getD "undefined".toList
      match p.highlightColumn tableId (colIdxOf id) false with
      | Outcome.typeError q => Outcome.typeError q
      | Outcome.done q =>
        clearEach
          { q with classes :=
              match getElementById q.document (colBtnId tableId colText) with
              | some btn => classListRemove q.classes btn "active".toList
              | none => q.classes }
          rest
    else
      clearEach
        { p with classes :=
            match getElementById p.document id with
            | some el => classListRemove p.classes el "selected".toList
            | none => p.classes }
        rest

/-- The call `clearSelection()`. -/
def Page.clearSelection (p : Page) : Outcome :=
  match clearEach p p.state.selectedElements with
  | Outcome.done q => Outcome.done { q with state := Debbie.clearSelection q.state }
  | Outcome.typeError q => Outcome.typeError q

/-- The call `updateSelectionUI()`. -/
def Page.updateSelectionUI (p : Page) : Page :=
  { p with state := Debbie.updateSelectionUI p.state }

/-- The call `handleSelection(e, id)`, with `isCtrl = e.ctrlKey || e.metaKey`. -/
def Page.handleSelection (p : Page) (isCtrl : Bool) (id : JsString) : Outcome :=
  if isCtrl then
    if id ∈ p.state.selectedElements then
      Outcome.done (p.removeFromSelection id).updateSelectionUI
    else Outcome.done (p.addToSelection id).updateSelectionUI
  else
    match p.clearSelection with
    | Outcome.typeError q => Outcome.typeError q
    | Outcome.done q => Outcome.done (q.addToSelection id).updateSelectionUI

/-- The part of `handleColumnSelection` after `clearSelection()`. The column
button is looked up without a test for `null`: when no element has its id, the
read of `classList` is a `TypeError`. -/
def Page.toggleColumn (p : Page) (tableId : JsString) (colIdx : Option Int) : Outcome :=
  let colId := colIdOf tableId colIdx
  let selected := decide (colId ∈ p.state.selectedElements)
  let p1 : Page :=
    { p with state :=
        { p.state with selectedElements :=
            if selected then p.state.selectedElements.filter (fun x => x != colId)
            else p.state.selectedElements ++ [colId] } }
  match p1.highlightColumn tableId colIdx (!selected) with
  | Outcome.typeError q => Outcome.typeError q
  | Outcome.done q =>
    match getElementById q.document (colBtnId tableId (numberText colIdx)) with
    | none => Outcome.typeError q
    | some btn =>
      Outcome.done
        ({ q with classes :=
            if selected then classListRemove q.classes btn "active".toList
            else classListAdd q.classes btn "active".toList } : Page).updateSelectionUI

/-- The call `handleColumnSelection(e, tableId, colIdx, rowCount)`, with
`isCtrl = e.ctrlKey || e.metaKey`. -/
def Page.handleColumnSelection (p : Page) (isCtrl : Bool) (tableId : JsString)
    (colIdx : Option Int) : Outcome :=
  if isCtrl then p.toggleColumn tableId colIdx
  else
    match p.clearSelection with
    | Outcome.typeError q => Outcome.typeError q
    | Outcome.done q => q.toggleColumn tableId colIdx

/-- The call `selectCurrentColumn()`. -/
def Page.selectCurrentColumn (p : Page) : Outcome :=
  match p.state.selectedElements with
  | [id] =>
    if !includes id "_r_".toList || !includes id "_c_".toList then Outcome.done p
    else
      let parts := jsSplit id "_".toList
      let tableId := "t_".toList ++ (parts[1]?).getD "undefined".toList
      let colIdx := match parts[5]? with
        | some part => parseInt part
        | none => none
      p.handleColumnSelection false tableId colIdx
  | _ => Outcome.done p

/-! ## Sequences of toggles -/

/-- One toggle of the selection: a click on a paragraph or cell, or a click on
a column button. -/
inductive Toggle where
  | element (isCtrl : Bool) (id : JsString)
  | column (isCtrl : Bool) (tableId : JsString) (colIdx : Option Int)
  deriving DecidableEq, Repr

/-- The id a toggle is about. -/
def Toggle.id : Toggle → JsString
  | Toggle.element _ id => id
  | Toggle.column _ tableId colIdx => colIdOf tableId colIdx

/-- Whether a toggle is made with ctrl (or meta) held. -/
def Toggle.additive : Toggle → Bool
  | Toggle.element isCtrl _ => isCtrl
  | Toggle.column isCtrl _ _ => isCtrl

/-- The handler call a toggle stands for. -/
def Page.toggle (p : Page) : Toggle → Outcome
  | Toggle.element isCtrl id => p.handleSelection isCtrl id
  | Toggle.column isCtrl tableId colIdx => p.handleColumnSelection isCtrl tableId colIdx

/-- The page after a sequence of toggles, each handler starting on the page
the one before has left. -/
def Page.replay (p : Page) (ops : List Toggle) : Page :=
  ops.foldl (fun q op => (q.toggle op).page) p

/-- Whether `clearSelection` can visit a member with this id without a
`TypeError`: an id that contains `_col_` names, before its first `_col_`, a
table of the document or no element at all. -/
def columnPartResolves (doc : Document) (id : JsString) : Bool :=
  !includes id "_col_".toList ||
    (match getElementById doc (((jsSplit id "_col_".toList)[0]?).getD "undefined".toList) with
      | none => true
      | some (Node.table _) => true
      | some _ => false)

/-- Reference set model of the specification, `toggleOrReplace(id, additive)`:
if `additive` is false all members are cleared first; then `id` is removed if
it is a member and added otherwise. -/
def toggleOrReplace (members : Finset JsString) (id : JsString) (additive : Bool) :
    Finset JsString :=
  let cleared := if additive then members else ∅
  if id ∈ cleared then cleared.erase id else insert id cleared

/-- The reference model replayed over a sequence of toggles. -/
def referenceReplay (members : Finset JsString) (ops : List Toggle) : Finset JsString :=
  ops.foldl (fun m op => toggleOrReplace m op.id op.additive) members

/-- Whether the `selected` markers of paragraphs and cells match the
selection: each paragraph and each cell carries the marker exactly if its own
id is selected or, for a cell, the id of its column is. -/
def markersMatch (p : Page) : Bool :=
  (documentNodes p.document).all (fun n =>
    match n.2 with
    | Node.paragraph _ =>
      hasClass p.classes n.2 "selected".toList == decide (n.1 ∈ p.state.selectedElements)
    | Node.cell t _ c =>
      hasClass p.classes n.2 "selected".toList ==
        (decide (n.1 ∈ p.state.selectedElements) ||
          decide (colIdOf ((p.document.tables[t]?).elim [] (fun tb => tb.id)) (some (c : Int)) ∈
            p.state.selectedElements))
    | _ => true)

/-! ## Saving on the page -/

/-- The loop of `saveConfiguration` that marks the cells of a column of table
`t` as configured, from row `r` on. -/
def configureRows (t : Nat) (colIdx : Option Int) :
    Nat → List (List JsString) → ClassLists → ClassLists
  | _, [], cl => cl
  | r, row :: rest, cl =>
    configureRows t colIdx (r + 1) rest
      (match cellAt row colIdx with
        | some c => classListAdd cl (Node.cell t r c) "configured".toList
        | none => cl)

/-- The styling that the `forEach` of `saveConfiguration` applies for one id:
the cells of a column and its button, or the one element. As in
`highlightColumn`, an element that has the id of the table and is not a table
has no `rows`, and reading `table.rows.length` is a `TypeError`. -/
def Page.markConfigured (p : Page) (id : JsString) : Outcome :=
  if includes id "_col_".toList then
    let parts := jsSplit id "_col_".toList
    let tableId := (parts[0]?).getD "undefined".toList
    let colIdx := colIdxOf id
    let marked : Option ClassLists :=
      match getElementById p.document tableId with
      | none => some p.classes
      | some (Node.table t) =>
        some (configureRows t colIdx 0 ((p.document.tables[t]?).elim [] (fun tb => tb.rows))
          p.classes)
      | some _ => none
    match marked with
    | none => Outcome.typeError p
    | some cl =>
      Outcome.done
        { p with classes :=
            match getElementById p.document (colBtnId tableId (numberText colIdx)) with
            | some btn => classListAdd cl btn "bg-green-500".toList
            | none => cl }
  else
    Outcome.done
      { p with classes :=
          match getElementById p.document id with
          | some el => classListAdd p.classes el "configured".toList
          | none => p.classes }

/-- The `forEach` of `saveConfiguration` on the page, from position `index`
on: for each id the store is updated as in `saveOne` and the styling is
applied; a `TypeError` ends the loop. -/
def saveEachOnPage (varName context groupId : JsString) (len : Nat) :
    Nat → List JsString → Page → Outcome
  | _, [], p => Outcome.done p
  | index, id :: rest, p =>
    let store := saveOne varName context groupId len p.state.configuredSelections id index
    let p1 : Page := { p with state := { p.state with configuredSelections := store } }
    match p1.markConfigured id with
    | Outcome.typeError q => Outcome.typeError q
    | Outcome.done q => saveEachOnPage varName context groupId len (index + 1) rest q

/-- The call `saveConfiguration()` on the page when `Date.now()` reads `now`. -/
def Page.saveConfiguration (p : Page) (now : Nat) : Outcome :=
  let varName := trim p.state.modalVarName
  let context := trim p.state.modalContext
  if varName = [] then
    let warned := showToast p.state
      { title := "Required Field".toList, message := "Variable Name is required.".toList,
        type := "warning".toList, duration := 3000 }
    Outcome.done { p with state := warned }
  else
    let groupId := numberToString 36 now
    let selectionArray := arraySort selectionCompare p.state.selectedElements
    match saveEachOnPage varName context groupId selectionArray.length 0 selectionArray p with
    | Outcome.typeError q => Outcome.typeError q
    | Outcome.done q =>
      let q1 : Page := { q with state := updateConfiguredListUI q.state }
      if (groupedViewBuilt q.state.configuredSelections).isNone then Outcome.typeError q1
      else
        match q1.clearSelection with
        | Outcome.typeError r => Outcome.typeError r
        | Outcome.done r => Outcome.done r.updateSelectionUI

/-! ## Facts about the sort -/

theorem insertLeftward_perm {α : Type} (cmp : α → α → Int) (x : α) (acc : List α) :
    (insertLeftward cmp x acc).Perm (x :: acc) := by
  induction acc with
  | nil => exact List.Perm.refl _
  | cons y ys ih =>
    unfold insertLeftward
    split
    · exact (List.Perm.cons y ih).trans (List.Perm.swap x y ys)
    · exact List.Perm.refl _

theorem sortGo_perm {α : Type} (cmp : α → α → Int) (l acc : List α) :
    (sortGo cmp acc l).Perm (l.reverse ++ acc) := by
  induction l generalizing acc with
  | nil => simp [sortGo]
  | cons x xs ih =>
    simp only [sortGo, List.reverse_cons, List.append_assoc, List.singleton_append]
    exact (ih _).trans (List.Perm.append_left _ (insertLeftward_perm cmp x acc))

theorem arraySort_perm {α : Type} (cmp : α → α → Int) (l : List α) :
    (arraySort cmp l).Perm l := by
  unfold arraySort
  have h := sortGo_perm cmp l []
  simp only [List.append_nil] at h
  exact (List.reverse_perm _).trans (h.trans (List.reverse_perm _))

theorem arraySort_length {α : Type} (cmp : α → α → Int) (l : List α) :
    (arraySort cmp l).length = l.length :=
  (arraySort_perm cmp l).length_eq

theorem arraySort_nodup {α : Type} (cmp : α → α → Int) {l : List α} (h : l.Nodup) :
    (arraySort cmp l).Nodup :=
  (arraySort_perm cmp l).nodup_iff.mpr h

theorem mem_arraySort {α : Type} (cmp : α → α → Int) (l : List α) (a : α) :
    a ∈ arraySort cmp l ↔ a ∈ l :=
  (arraySort_perm cmp l).mem_iff

/-- An element behind which nothing is greater stays where it is put. -/
theorem insertLeftward_of_le {α : Type} (cmp : α → α → Int) (x y : α) (ys : List α)
    (h : cmp y x ≤ 0) : insertLeftward cmp x (y :: ys) = x :: y :: ys := by
  simp [insertLeftward, not_lt.mpr h]

/-- The sort leaves an array alone in which no element is greater than its successor. -/
theorem sortGo_of_chain {α : Type} (cmp : α → α → Int) (l acc : List α)
    (hl : List.Chain' (fun a b => cmp a b ≤ 0) l)
    (hacc : ∀ y ∈ acc.head?, ∀ x ∈ l.head?, cmp y x ≤ 0) :
    sortGo cmp acc l = l.reverse ++ acc := by
  induction l generalizing acc with
  | nil => simp [sortGo]
  | cons x xs ih =>
    have hins : insertLeftward cmp x acc = x :: acc := by
      cases acc with
      | nil => rfl
      | cons y ys => exact insertLeftward_of_le cmp x y ys (hacc y (by simp) x (by simp))
    simp only [sortGo, hins, List.reverse_cons, List.append_assoc, List.singleton_append]
    apply ih
    · exact List.Chain'.tail hl
    · intro y hy z hz
      simp only [List.head?_cons, Option.mem_def, Option.some.injEq] at hy
      subst hy
      cases xs with
      | nil => simp at hz
      | cons w ws =>
        simp only [List.head?_cons, Option.mem_def, Option.some.injEq] at hz
        subst hz
        exact (List.chain'_cons.mp hl).1

theorem arraySort_of_chain {α : Type} (cmp : α → α → Int) (l : List α)
    (hl : List.Chain' (fun a b => cmp a b ≤ 0) l) : arraySort cmp l = l := by
  unfold arraySort
  rw [sortGo_of_chain cmp l [] hl (by simp)]
  simp

/-! ## Facts about the store loop -/

/-- Finding the first match and splicing it out removes the first match. -/
theorem splice_eq_eraseP {α : Type} (p : α → Bool) (l : List α) :
    (match l.findIdx? p with
      | some existingIdx => l.eraseIdx existingIdx
      | none => l) = l.eraseP p := by
  induction l with
  | nil => rfl
  | cons x xs ih =>
    by_cases hx : p x = true
    · simp [List.findIdx?_cons, hx]
    · simp only [List.findIdx?_cons, hx, Bool.false_eq_true, if_false, zero_add,
        List.findIdx?_succ, List.eraseP_cons_of_neg hx, ← ih]
      cases h : xs.findIdx? p 0 <;> simp

theorem saveOne_eq (varName context groupId : JsString) (len : Nat)
    (store : List FieldConfiguration) (id : JsString) (index : Nat) :
    saveOne varName context groupId len store id index =
      store.eraseP (fun c => c.id == id) ++
        [{ id := id, variable_name := uniqueVarName varName len index,
           description := context, group_id := groupId }] := by
  unfold saveOne
  simp only [splice_eq_eraseP]

theorem eraseP_append_of_forall_not {α : Type} (p : α → Bool) (st pushed : List α)
    (h : ∀ e ∈ pushed, ¬ p e = true) :
    (st ++ pushed).eraseP p = st.eraseP p ++ pushed := by
  have hp : pushed.eraseP p = pushed := List.eraseP_of_forall_not h
  by_cases hex : ∃ a ∈ st, p a = true
  · obtain ⟨a, ha, hpa⟩ := hex
    exact List.eraseP_append_left hpa _ ha
  · have hno : ∀ b ∈ st, ¬ p b = true := fun b hb hpb => hex ⟨b, hb, hpb⟩
    rw [List.eraseP_append_right _ hno, hp, List.eraseP_of_forall_not hno]

theorem eraseP_append_of_not_mem (id : JsString) (st pushed : List FieldConfiguration)
    (h : ∀ e ∈ pushed, e.id ≠ id) :
    (st ++ pushed).eraseP (fun c => c.id == id) =
      st.eraseP (fun c => c.id == id) ++ pushed :=
  eraseP_append_of_forall_not _ st pushed (fun e he => by simpa using h e he)

/-- The loop pushes one entry per id, after the old entries it has not spliced out. -/
theorem saveEach_append (varName context groupId : JsString) (len : Nat)
    (arr : List JsString) (index : Nat) (st pushed : List FieldConfiguration)
    (hnd : arr.Nodup) (hfresh : ∀ id ∈ arr, ∀ e ∈ pushed, e.id ≠ id) :
    saveEach varName context groupId len index arr (st ++ pushed) =
      arr.foldl (fun acc id => acc.eraseP (fun c => c.id == id)) st ++ pushed ++
        (arr.enumFrom index).map (fun p =>
          { id := p.2, variable_name := uniqueVarName varName len p.1,
            description := context, group_id := groupId }) := by
  induction arr generalizing index st pushed with
  | nil => simp [saveEach]
  | cons id rest ih =>
    have hid : id ∉ rest := (List.nodup_cons.mp hnd).1
    have hrest : rest.Nodup := (List.nodup_cons.mp hnd).2
    simp only [saveEach, saveOne_eq, List.foldl_cons, List.enumFrom_cons, List.map_cons]
    rw [eraseP_append_of_not_mem id st pushed (hfresh id (by simp)), List.append_assoc]
    rw [ih (index + 1) _ _ hrest]
    · simp [List.append_assoc]
    · intro id' hid' e he
      rcases List.mem_append.mp he with he | he
      · exact hfresh id' (List.mem_cons_of_mem _ hid') e he
      · simp only [List.mem_singleton] at he
        subst he
        intro h
        simp only at h
        subst h
        exact hid hid'

theorem eraseP_eq_filter_of_nodup (id : JsString) (l : List FieldConfiguration)
    (h : (l.map (fun c => c.id)).Nodup) :
    l.eraseP (fun c => c.id == id) = l.filter (fun c => c.id != id) := by
  induction l with
  | nil => rfl
  | cons x xs ih =>
    simp only [List.map_cons, List.nodup_cons, List.mem_map, not_exists, not_and] at h
    by_cases hx : x.id = id
    · have hall : ∀ c ∈ xs, (c.id != id) = true := by
        intro c hc
        have := h.1 c hc
        simp only [bne_iff_ne, ne_eq]
        intro hcid
        exact this (hcid.trans hx.symm)
      simp [hx, List.filter_eq_self.mpr hall]
    · simp [List.eraseP_cons, hx, ih h.2]

theorem nodup_ids_filter (q : FieldConfiguration → Bool) (l : List FieldConfiguration)
    (h : (l.map (fun c => c.id)).Nodup) : ((l.filter q).map (fun c => c.id)).Nodup :=
  h.sublist (List.Sublist.map _ (List.filter_sublist l))

theorem foldl_eraseP_eq_filter (arr : List JsString) (l : List FieldConfiguration)
    (h : (l.map (fun c => c.id)).Nodup) :
    arr.foldl (fun acc id => acc.eraseP (fun c => c.id == id)) l =
      l.filter (fun c => decide (c.id ∉ arr)) := by
  induction arr generalizing l with
  | nil => simp
  | cons id rest ih =>
    simp only [List.foldl_cons]
    rw [eraseP_eq_filter_of_nodup id l h, ih _ (nodup_ids_filter _ l h), List.filter_filter]
    apply List.filter_congr
    intro c _
    by_cases hc : c.id = id <;> simp [hc]

theorem foldl_eraseP_sublist (arr : List JsString) (l : List FieldConfiguration) :
    (arr.foldl (fun acc id => acc.eraseP (fun c => c.id == id)) l).Sublist l := by
  induction arr generalizing l with
  | nil => simp
  | cons id rest ih =>
    simp only [List.foldl_cons]
    exact (ih _).trans (List.eraseP_sublist l)

/-! ## Facts about numerals -/

theorem digitVal_digitChar : ∀ d, d < 36 → digitVal (digitChar d) = some d := by
  decide

theorem digitsLE_eq_digits (b : Nat) (hb : 1 < b) (fuel n : Nat) (h : n ≤ fuel) :
    digitsLE b fuel n = Nat.digits b n := by
  induction fuel generalizing n with
  | zero =>
    have : n = 0 := Nat.le_zero.mp h
    subst this
    simp [digitsLE]
  | succ fuel ih =>
    unfold digitsLE
    by_cases hn : n = 0
    · subst hn
      simp
    · have hpos : 0 < n := Nat.pos_of_ne_zero hn
      have hdiv : n / b ≤ fuel := by
        have := Nat.div_lt_self hpos hb
        omega
      rw [if_neg hn, ih _ hdiv, Nat.digits_def' hb hpos]

/-- The digit values of a printed numeral are the digits of the number. -/
theorem numberToString_map_digitVal (b : Nat) (hb : 1 < b) (hb36 : b ≤ 36) (n : Nat)
    (hn : n ≠ 0) :
    (numberToString b n).map digitVal = (Nat.digits b n).reverse.map some := by
  unfold numberToString
  rw [if_neg hn, digitsLE_eq_digits b hb n n (le_refl n), List.map_map]
  apply List.map_congr_left
  intro d hd
  have hlt : d < b := Nat.digits_lt_base hb (List.mem_reverse.mp hd)
  exact digitVal_digitChar d (by omega)

theorem numberToString_ne_nil (b n : Nat) (hb : 1 < b) : numberToString b n ≠ [] := by
  unfold numberToString
  by_cases hn : n = 0
  · simp [hn]
  · rw [if_neg hn, digitsLE_eq_digits b hb n n (le_refl n)]
    simp [Nat.digits_ne_nil_iff_ne_zero, hn]

/-- Printing in a radix from 2 to 36 loses nothing: different numbers print differently. -/
theorem numberToString_injective (b : Nat) (hb : 1 < b) (hb36 : b ≤ 36) (n m : Nat)
    (h : numberToString b n = numberToString b m) : n = m := by
  have key : ∀ k, k ≠ 0 → numberToString b 0 ≠ numberToString b k := by
    intro k hk h0
    have h1 := congrArg (List.map digitVal) h0
    rw [numberToString_map_digitVal b hb hb36 k hk] at h1
    have h2 : (Nat.digits b k).reverse.map some = [some 0] := by
      rw [← h1]
      simp only [numberToString, if_true, List.map_cons, List.map_nil]
      decide
    have h3 : Nat.digits b k = [0] := by
      have h4 : ((Nat.digits b k).reverse.map some) = ([0] : List Nat).map some := by
        simpa using h2
      have h5 := List.map_injective_iff.mpr (Option.some_injective Nat) h4
      have h6 := congrArg List.reverse h5
      simpa using h6
    have h7 := Nat.ofDigits_digits b k
    rw [h3] at h7
    simp at h7
    exact hk h7.symm
  by_cases hn : n = 0
  · by_cases hm : m = 0
    · rw [hn, hm]
    · subst hn
      exact absurd h (key m hm)
  · by_cases hm : m = 0
    · subst hm
      exact absurd h.symm (key n hn)
    · have h1 := congrArg (List.map digitVal) h
      rw [numberToString_map_digitVal b hb hb36 n hn,
        numberToString_map_digitVal b hb hb36 m hm] at h1
      have h2 := List.map_injective_iff.mpr (Option.some_injective Nat) h1
      have h3 := List.reverse_injective h2
      exact Nat.digits.injective b h3

/-! ## Facts about `saveConfiguration` -/

theorem updateConfiguredListUI_store (s : State) :
    (updateConfiguredListUI s).configuredSelections = s.configuredSelections := by
  unfold updateConfiguredListUI
  split <;> rfl

theorem updateConfiguredListUI_selection (s : State) :
    (updateConfiguredListUI s).selectedElements = s.selectedElements := by
  unfold updateConfiguredListUI
  split <;> rfl

/-- The store after a save is what the `forEach` leaves, whatever the order
the engine has put the selection array in. -/
theorem saveConfigurationWith_store
    (sort : (JsString → JsString → Int) → List JsString → List JsString)
    (s : State) (now : Nat) (hname : trim s.modalVarName ≠ []) :
    (saveConfigurationWith sort s now).configuredSelections =
      saveEach (trim s.modalVarName) (trim s.modalContext) (numberToString 36 now)
        (sort selectionCompare s.selectedElements).length 0
        (sort selectionCompare s.selectedElements) s.configuredSelections := by
  unfold saveConfigurationWith
  simp only [hname, if_false]
  split
  · rw [updateConfiguredListUI_store]
  · simp only [updateSelectionUI, clearSelection]
    rw [updateConfiguredListUI_store]

theorem saveConfigurationWith_store_of_blank
    (sort : (JsString → JsString → Int) → List JsString → List JsString)
    (s : State) (now : Nat) (hname : trim s.modalVarName = []) :
    saveConfigurationWith sort s now =
      showToast s
        { title := "Required Field".toList, message := "Variable Name is required.".toList,
          type := "warning".toList, duration := 3000 } := by
  unfold saveConfigurationWith
  simp only [hname, if_true]

/-- The store after a save: the old entries not spliced out, then one new
entry per selected id in the order the engine has put the selection array in. -/
theorem saveConfigurationWith_store_eq
    (sort : (JsString → JsString → Int) → List JsString → List JsString)
    (hsort : ∀ cmp arr, (sort cmp arr).Perm arr)
    (s : State) (now : Nat)
    (hname : trim s.modalVarName ≠ []) (hnd : s.selectedElements.Nodup) :
    (saveConfigurationWith sort s now).configuredSelections =
      (sort selectionCompare s.selectedElements).foldl
          (fun acc id => acc.eraseP (fun c => c.id == id)) s.configuredSelections ++
        (sort selectionCompare s.selectedElements).enum.map (fun p =>
          { id := p.2,
            variable_name := uniqueVarName (trim s.modalVarName)
              (sort selectionCompare s.selectedElements).length p.1,
            description := trim s.modalContext,
            group_id := numberToString 36 now }) := by
  rw [saveConfigurationWith_store sort s now hname]
  have h := saveEach_append (trim s.modalVarName) (trim s.modalContext)
    (numberToString 36 now) (sort selectionCompare s.selectedElements).length
    (sort selectionCompare s.selectedElements) 0 s.configuredSelections []
    ((hsort _ _).nodup_iff.mpr hnd) (by simp)
  simpa [List.enum] using h

theorem saveConfiguration_store (s : State) (now : Nat) (hname : trim s.modalVarName ≠ []) :
    (saveConfiguration s now).configuredSelections =
      saveEach (trim s.modalVarName) (trim s.modalContext) (numberToString 36 now)
        (arraySort selectionCompare s.selectedElements).length 0
        (arraySort selectionCompare s.selectedElements) s.configuredSelections :=
  saveConfigurationWith_store arraySort s now hname

/-- The store after a save: the old entries not spliced out, then one new
entry per selected id in sorted order. -/
theorem saveConfiguration_store_eq (s : State) (now : Nat)
    (hname : trim s.modalVarName ≠ []) (hnd : s.selectedElements.Nodup) :
    (saveConfiguration s now).configuredSelections =
      (arraySort selectionCompare s.selectedElements).foldl
          (fun acc id => acc.eraseP (fun c => c.id == id)) s.configuredSelections ++
        (arraySort selectionCompare s.selectedElements).enum.map (fun p =>
          { id := p.2,
            variable_name := uniqueVarName (trim s.modalVarName)
              (arraySort selectionCompare s.selectedElements).length p.1,
            description := trim s.modalContext,
            group_id := numberToString 36 now }) :=
  saveConfigurationWith_store_eq arraySort (fun cmp arr => arraySort_perm cmp arr) s now hname hnd

theorem trim_eq_nil_of_all (t : JsString) (h : ∀ c ∈ t, isWhiteSpace c = true) :
    trim t = [] := by
  unfold trim
  rw [List.dropWhile_eq_nil_iff.mpr h]
  rfl

theorem dropWhile_eq_self_of_head {α : Type} (p : α → Bool) (l : List α)
    (h : ∀ c ∈ l.head?, p c = false) : l.dropWhile p = l := by
  cases l with
  | nil => rfl
  | cons a as =>
    have : p a = false := h a (by simp)
    simp [List.dropWhile_cons, this]

theorem trim_eq_self (t : JsString) (hhead : ∀ c ∈ t.head?, isWhiteSpace c = false)
    (hlast : ∀ c ∈ t.getLast?, isWhiteSpace c = false) : trim t = t := by
  unfold trim
  rw [dropWhile_eq_self_of_head _ t hhead, dropWhile_eq_self_of_head _ t.reverse]
  · simp
  · simpa [List.head?_reverse] using hlast

/-! ## Facts about the order the save ranks ids in -/

/-- Elements that compare as not greater than anything and that nothing is
greater than are not overtaken: the sort keeps them in their order. -/
theorem filter_insertLeftward {α : Type} (cmp : α → α → Int) (p : α → Bool) (x : α)
    (acc : List α) (h : ∀ y, p y = true → cmp y x ≤ 0) :
    (insertLeftward cmp x acc).filter p = (x :: acc).filter p := by
  induction acc with
  | nil => rfl
  | cons y ys ih =>
    unfold insertLeftward
    split
    · next hgt =>
      have hy : p y = false := by
        cases hpy : p y
        · rfl
        · have := h y hpy
          omega
      simp only [List.filter_cons, hy, Bool.false_eq_true, if_false, ih]
    · rfl

theorem filter_sortGo {α : Type} (cmp : α → α → Int) (p : α → Bool) (l acc : List α)
    (h : ∀ x y, p y = true → cmp y x ≤ 0) :
    (sortGo cmp acc l).filter p = (l.reverse ++ acc).filter p := by
  induction l generalizing acc with
  | nil => simp [sortGo]
  | cons x xs ih =>
    simp only [sortGo, ih, List.filter_append, List.reverse_cons, List.append_assoc,
      List.singleton_append, filter_insertLeftward cmp p x acc (h x)]

theorem filter_arraySort {α : Type} (cmp : α → α → Int) (p : α → Bool) (l : List α)
    (h : ∀ x y, p y = true → cmp y x ≤ 0) :
    (arraySort cmp l).filter p = l.filter p := by
  unfold arraySort
  rw [← List.reverse_reverse ((sortGo cmp [] l).reverse.filter p), ← List.filter_reverse,
    List.reverse_reverse, filter_sortGo cmp p l [] h, List.append_nil, List.filter_reverse,
    List.reverse_reverse]

theorem insertLeftward_pairwise {α : Type} (cmp : α → α → Int) (key : α → Int) (x : α)
    (acc : List α) (hkey : ∀ y ∈ acc, cmp y x = key y - key x)
    (hacc : acc.Pairwise (fun a b => key b ≤ key a)) :
    (insertLeftward cmp x acc).Pairwise (fun a b => key b ≤ key a) := by
  induction acc with
  | nil => simp [insertLeftward]
  | cons y ys ih =>
    have hy := hkey y (by simp)
    have hys := List.pairwise_cons.mp hacc
    unfold insertLeftward
    split
    · next hgt =>
      rw [List.pairwise_cons]
      refine ⟨fun z hz => ?_, ih (fun w hw => hkey w (List.mem_cons_of_mem _ hw)) hys.2⟩
      rcases List.mem_cons.mp ((insertLeftward_perm cmp x ys).mem_iff.mp hz) with hzx | hzy
      · subst hzx
        omega
      · exact hys.1 z hzy
    · next hle =>
      rw [List.pairwise_cons]
      refine ⟨fun z hz => ?_, hacc⟩
      rcases List.mem_cons.mp hz with hzy | hzy
      · subst hzy
        omega
      · have := hys.1 z hzy
        omega

theorem sortGo_pairwise {α : Type} (cmp : α → α → Int) (key : α → Int) (l acc : List α)
    (hkey : ∀ a ∈ l ++ acc, ∀ b ∈ l ++ acc, cmp a b = key a - key b)
    (hacc : acc.Pairwise (fun a b => key b ≤ key a)) :
    (sortGo cmp acc l).Pairwise (fun a b => key b ≤ key a) := by
  induction l generalizing acc with
  | nil => simpa [sortGo] using hacc
  | cons x xs ih =>
    simp only [sortGo]
    apply ih
    · intro a ha b hb
      apply hkey
      · rcases List.mem_append.mp ha with h | h
        · simp [h]
        · rcases List.mem_cons.mp ((insertLeftward_perm cmp x acc).mem_iff.mp h) with h | h
          · simp [h]
          · simp [h]
      · rcases List.mem_append.mp hb with h | h
        · simp [h]
        · rcases List.mem_cons.mp ((insertLeftward_perm cmp x acc).mem_iff.mp h) with h | h
          · simp [h]
          · simp [h]
    · apply insertLeftward_pairwise cmp key x acc _ hacc
      intro y hy
      exact hkey y (by simp [hy]) x (by simp)

/-- With a comparator that is the difference of a key, the sort puts the array
in ascending order of the key. -/
theorem arraySort_pairwise {α : Type} (cmp : α → α → Int) (key : α → Int) (l : List α)
    (hkey : ∀ a ∈ l, ∀ b ∈ l, cmp a b = key a - key b) :
    (arraySort cmp l).Pairwise (fun a b => key a ≤ key b) := by
  unfold arraySort
  rw [List.pairwise_reverse]
  exact sortGo_pairwise cmp key l [] (by simpa using hkey) List.Pairwise.nil

/-- A selection of ColumnIds only, each with a column index that parses, is
ranked in ascending order of the column index. -/
theorem arraySort_selection_of_columns (selection : List JsString)
    (hcols : ∀ a ∈ selection, includes a "_col_".toList = true ∧ (colIdxOf a).isSome = true) :
    (arraySort selectionCompare selection).Pairwise
      (fun a b => (colIdxOf a).getD 0 ≤ (colIdxOf b).getD 0) := by
  apply arraySort_pairwise selectionCompare (fun a => (colIdxOf a).getD 0)
  intro a ha b hb
  obtain ⟨ha1, ha2⟩ := hcols a ha
  obtain ⟨hb1, hb2⟩ := hcols b hb
  obtain ⟨i, hi⟩ := Option.isSome_iff_exists.mp ha2
  obtain ⟨j, hj⟩ := Option.isSome_iff_exists.mp hb2
  unfold selectionCompare
  simp only [ha1, hb1, hi, hj, Bool.and_self, if_true, Option.getD_some]

/-- The comparator of the save answers 0 whenever one side is a plain id. -/
theorem selectionCompare_plain (x y : JsString) (hy : includes y "_col_".toList = false) :
    selectionCompare y x = 0 := by
  unfold selectionCompare
  simp only [hy, Bool.false_and, Bool.false_eq_true, if_false]

/-- The plain ids of a selection keep their order in the sorted selection array. -/
theorem arraySort_selection_plain (selection : List JsString) :
    (arraySort selectionCompare selection).filter (fun a => !includes a "_col_".toList) =
      selection.filter (fun a => !includes a "_col_".toList) := by
  apply filter_arraySort
  intro x y hy
  have hy' : includes y "_col_".toList = false := by simpa using hy
  rw [selectionCompare_plain x y hy']

/-! ## The claims -/

/-- C1, at an input that breaks it: with the selection made in the order
`t_0_col_2`, `p_0`, `p_1`, `t_0_col_1` the comparator answers 0 for every pair
of neighbours, the sort leaves the array as it is, and the save ranks column 2
first and column 1 last, although 1 < 2. The other half of the claim holds: in
every selection the plain ids keep their order. -/
theorem saveConfiguration_columns_apart_unsorted :
    (∀ selection : List JsString,
      (arraySort selectionCompare selection).filter (fun a => !includes a "_col_".toList) =
        selection.filter (fun a => !includes a "_col_".toList)) ∧
    arraySort selectionCompare
        ["t_0_col_2".toList, "p_0".toList, "p_1".toList, "t_0_col_1".toList] =
      ["t_0_col_2".toList, "p_0".toList, "p_1".toList, "t_0_col_1".toList] ∧
    colIdxOf "t_0_col_2".toList = some 2 ∧ colIdxOf "t_0_col_1".toList = some 1 ∧
    (saveConfiguration
        { State.init with
          selectedElements :=
            ["t_0_col_2".toList, "p_0".toList, "p_1".toList, "t_0_col_1".toList],
          modalVarName := "X".toList } 1000).configuredSelections.map
        (fun c => (c.id, c.variable_name)) =
      [("t_0_col_2".toList, "X||1".toList), ("p_0".toList, "X||2".toList),
       ("p_1".toList, "X||3".toList), ("t_0_col_1".toList, "X||4".toList)] :=
  ⟨arraySort_selection_plain, by decide⟩

theorem rankedName_injective (base : JsString) :
    Function.Injective
      (fun k : Nat => base ++ "||".toList ++ numberToString 10 (k + 1)) := by
  intro a b h
  have h1 := List.append_cancel_left h
  have h2 := numberToString_injective 10 (by decide) (by decide) _ _ h1
  omega

theorem enum_map_fst_comp {α β : Type} (l : List α) (f : Nat → β) :
    l.enum.map (fun p => f p.1) = (List.range l.length).map f := by
  rw [← List.enum_map_fst l, List.map_map]
  rfl

/-- C2: whatever order the `sort` of the engine puts the selection array in
(of `sort` it is only assumed that it returns a permutation of the array it is
given), when more than one id is selected and the trimmed name `B` is not
empty, the last `N` entries of the store after the save are, position by
position, the ids of that array, the one at 1-based position `k` named `B`
followed by `||` and the decimal numeral of `k`; the names are `B||1`, ...,
`B||N` in this order and no two of them are equal. -/
theorem saveConfiguration_names_ranked
    (sort : (JsString → JsString → Int) → List JsString → List JsString)
    (hsort : ∀ cmp arr, (sort cmp arr).Perm arr)
    (s : State) (now : Nat)
    (hname : trim s.modalVarName ≠ []) (hnd : s.selectedElements.Nodup)
    (hN : 1 < s.selectedElements.length) :
    (((saveConfigurationWith sort s now).configuredSelections.drop
          ((saveConfigurationWith sort s now).configuredSelections.length -
            s.selectedElements.length)).map (fun c => (c.id, c.variable_name)) =
        (sort selectionCompare s.selectedElements).enum.map (fun p =>
          (p.2, trim s.modalVarName ++ "||".toList ++ numberToString 10 (p.1 + 1)))) ∧
    (((saveConfigurationWith sort s now).configuredSelections.drop
          ((saveConfigurationWith sort s now).configuredSelections.length -
            s.selectedElements.length)).map (fun c => c.variable_name) =
        (List.range s.selectedElements.length).map (fun k =>
          trim s.modalVarName ++ "||".toList ++ numberToString 10 (k + 1))) ∧
    ((List.range s.selectedElements.length).map (fun k =>
        trim s.modalVarName ++ "||".toList ++ numberToString 10 (k + 1))).Nodup := by
  have hlen : (sort selectionCompare s.selectedElements).length = s.selectedElements.length :=
    (hsort selectionCompare s.selectedElements).length_eq
  have hN' : 1 < (sort selectionCompare s.selectedElements).length := by omega
  have hdrop : (saveConfigurationWith sort s now).configuredSelections.drop
      ((saveConfigurationWith sort s now).configuredSelections.length -
        s.selectedElements.length) =
      (sort selectionCompare s.selectedElements).enum.map (fun p =>
          ({ id := p.2,
             variable_name := trim s.modalVarName ++ "||".toList ++ numberToString 10 (p.1 + 1),
             description := trim s.modalContext,
             group_id := numberToString 36 now } : FieldConfiguration)) := by
    rw [saveConfigurationWith_store_eq sort hsort s now hname hnd]
    simp only [uniqueVarName, hN', if_true]
    rw [List.drop_left']
    simp [hlen]
  refine ⟨?_, ?_, ?_⟩
  · rw [hdrop, List.map_map]
    rfl
  · rw [hdrop, List.map_map, ← hlen]
    exact enum_map_fst_comp (sort selectionCompare s.selectedElements)
      (fun k => trim s.modalVarName ++ "||".toList ++ numberToString 10 (k + 1))
  · exact (List.nodup_range _).map (rankedName_injective _)

theorem saveConfiguration_names_ranked_witness :
    (((saveConfiguration
          { State.init with
            selectedElements := ["t_0_col_1".toList, "p_0".toList],
            modalVarName := " X ".toList } 1000).configuredSelections.drop
          ((saveConfiguration
              { State.init with
                selectedElements := ["t_0_col_1".toList, "p_0".toList],
                modalVarName := " X ".toList } 1000).configuredSelections.length -
            2)).map (fun c => (c.id, c.variable_name)) =
        [("t_0_col_1".toList, "X||1".toList), ("p_0".toList, "X||2".toList)]) ∧
    ((List.range 2).map (fun k => "X".toList ++ "||".toList ++ numberToString 10 (k + 1))).Nodup := by
  have h := saveConfiguration_names_ranked arraySort (fun cmp arr => arraySort_perm cmp arr)
    { State.init with
      selectedElements := ["t_0_col_1".toList, "p_0".toList],
      modalVarName := " X ".toList } 1000 (by decide) (by decide) (by decide)
  exact ⟨h.1, h.2.2⟩

/-- C3, at an input that breaks it: one id is selected and the name field holds
`" X "`, which is not empty after trimming; the one configuration saved is
named `"X"`, not the text that was entered. -/
theorem saveConfiguration_single_name_trimmed :
    ({ State.init with
        selectedElements := ["p_0".toList],
        modalVarName := " X ".toList } : State).selectedElements.length = 1 ∧
    trim " X ".toList ≠ [] ∧
    (saveConfiguration
        { State.init with
          selectedElements := ["p_0".toList],
          modalVarName := " X ".toList } 1000).configuredSelections =
      [{ id := "p_0".toList, variable_name := "X".toList, description := [],
         group_id := "rs".toList }] ∧
    "X".toList ≠ " X ".toList := by
  decide

/-- The store after a save with exactly one id selected. -/
theorem saveConfiguration_store_single (s : State) (now : Nat) (x : JsString)
    (hsel : s.selectedElements = [x]) (hname : trim s.modalVarName ≠ []) :
    (saveConfiguration s now).configuredSelections =
        s.configuredSelections.eraseP (fun c => c.id == x) ++
          [{ id := x, variable_name := trim s.modalVarName,
             description := trim s.modalContext, group_id := numberToString 36 now }] := by
  rw [saveConfiguration_store s now hname, hsel]
  simp [arraySort, sortGo, insertLeftward, saveEach, saveOne_eq, uniqueVarName]

/-- C3, amended: when exactly one id `x` is selected and the name is not
empty after trimming, the store after the save is the old store without its
first entry for `x`, followed by exactly one new entry for `x`; the new entry
is named by the entered text with the white space at both ends removed and
with no suffix, which is the entered text itself whenever that text neither
starts nor ends with white space. -/
theorem saveConfiguration_single (s : State) (now : Nat) (x : JsString)
    (hsel : s.selectedElements = [x]) (hname : trim s.modalVarName ≠ []) :
    (saveConfiguration s now).configuredSelections =
        s.configuredSelections.eraseP (fun c => c.id == x) ++
          [{ id := x, variable_name := trim s.modalVarName,
             description := trim s.modalContext, group_id := numberToString 36 now }] ∧
    ((∀ c ∈ s.modalVarName.head?, isWhiteSpace c = false) →
      (∀ c ∈ s.modalVarName.getLast?, isWhiteSpace c = false) →
      trim s.modalVarName = s.modalVarName) := by
  exact ⟨saveConfiguration_store_single s now x hsel hname, trim_eq_self s.modalVarName⟩

theorem saveConfiguration_single_witness :
    (saveConfiguration
        { State.init with
          selectedElements := ["p_0".toList],
          modalVarName := "Total".toList } 1000).configuredSelections =
        ([] : List FieldConfiguration).eraseP (fun c => c.id == "p_0".toList) ++
          [{ id := "p_0".toList, variable_name := trim "Total".toList,
             description := trim [], group_id := numberToString 36 1000 }] ∧
    trim "Total".toList = "Total".toList :=
  have h := saveConfiguration_single
    { State.init with
      selectedElements := ["p_0".toList],
      modalVarName := "Total".toList } 1000 "p_0".toList rfl (by decide)
  ⟨h.1, h.2 (by decide) (by decide)⟩

/-- C4: when the name field is empty or holds only white space,
`saveConfiguration` does nothing but raise the warning "Required Field"; the
list of configurations is the one before the call, entry for entry. -/
theorem saveConfiguration_rejects_blank_name (s : State) (now : Nat)
    (hblank : ∀ c ∈ s.modalVarName, isWhiteSpace c = true) :
    saveConfiguration s now =
        showToast s
          { title := "Required Field".toList, message := "Variable Name is required.".toList,
            type := "warning".toList, duration := 3000 } ∧
    (saveConfiguration s now).configuredSelections = s.configuredSelections := by
  have h : trim s.modalVarName = [] := trim_eq_nil_of_all _ hblank
  have hsave := saveConfigurationWith_store_of_blank arraySort s now h
  exact ⟨hsave, by rw [show saveConfiguration s now = _ from hsave]; rfl⟩

theorem saveConfiguration_rejects_blank_name_witness :
    saveConfiguration
        { State.init with
          selectedElements := ["p_0".toList],
          modalVarName := " \t ".toList } 1000 =
        showToast
          { State.init with
            selectedElements := ["p_0".toList],
            modalVarName := " \t ".toList }
          { title := "Required Field".toList, message := "Variable Name is required.".toList,
            type := "warning".toList, duration := 3000 } ∧
    (saveConfiguration
        { State.init with
          selectedElements := ["p_0".toList],
          modalVarName := " \t ".toList } 1000).configuredSelections = [] :=
  saveConfiguration_rejects_blank_name
    { State.init with
      selectedElements := ["p_0".toList],
      modalVarName := " \t ".toList } 1000 (by decide)

/-- C5, at an input that breaks it: the key handler cancels the key `|`, but
a suggestion `a|b` is put into the name field as it is, and the save that
follows stores a configuration named `a|b`. -/
theorem saveConfiguration_stores_pipe_name :
    preventPipeCharacter "|".toList = true ∧
    includes "a|b".toList "|".toList = true ∧
    (generateVariableSuggestion (handleSelection State.init false "p_0".toList)
        "a|b".toList).modalVarName = "a|b".toList ∧
    (saveConfiguration
        (generateVariableSuggestion (handleSelection State.init false "p_0".toList)
          "a|b".toList) 1000).configuredSelections =
      [{ id := "p_0".toList, variable_name := "a|b".toList, description := [],
         group_id := "rs".toList }] := by
  decide


theorem saveOne_nodup (varName context groupId : JsString) (len : Nat)
    (store : List FieldConfiguration) (id : JsString) (index : Nat)
    (h : (store.map (fun c => c.id)).Nodup) :
    ((saveOne varName context groupId len store id index).map (fun c => c.id)).Nodup := by
  rw [saveOne_eq, eraseP_eq_filter_of_nodup id store h, List.map_append]
  apply List.Nodup.append (nodup_ids_filter _ store h) (by simp)
  intro a ha hb
  simp only [List.map_cons, List.map_nil, List.mem_singleton] at hb
  subst hb
  simp only [List.mem_map, List.mem_filter, bne_iff_ne, ne_eq] at ha
  obtain ⟨c, ⟨_, hne⟩, heq⟩ := ha
  exact hne heq

theorem saveEach_nodup (varName context groupId : JsString) (len : Nat)
    (arr : List JsString) (index : Nat) (store : List FieldConfiguration)
    (h : (store.map (fun c => c.id)).Nodup) :
    ((saveEach varName context groupId len index arr store).map (fun c => c.id)).Nodup := by
  induction arr generalizing index store with
  | nil => simpa [saveEach] using h
  | cons id rest ih =>
    simp only [saveEach]
    exact ih _ _ (saveOne_nodup _ _ _ _ _ _ _ h)

theorem saveConfiguration_store_of_blank (s : State) (now : Nat)
    (hname : trim s.modalVarName = []) :
    (saveConfiguration s now).configuredSelections = s.configuredSelections := by
  rw [show saveConfiguration s now = _ from
    saveConfigurationWith_store_of_blank arraySort s now hname]
  rfl

theorem saveConfiguration_nodup (s : State) (now : Nat)
    (h : (s.configuredSelections.map (fun c => c.id)).Nodup) :
    ((saveConfiguration s now).configuredSelections.map (fun c => c.id)).Nodup := by
  by_cases hname : trim s.modalVarName = []
  · rw [saveConfiguration_store_of_blank s now hname]
    exact h
  · rw [saveConfiguration_store s now hname]
    exact saveEach_nodup _ _ _ _ _ _ _ h

theorem foldl_applySave_nodup (calls : List SaveCall) (s : State)
    (h : (s.configuredSelections.map (fun c => c.id)).Nodup) :
    ((calls.foldl applySave s).configuredSelections.map (fun c => c.id)).Nodup := by
  induction calls generalizing s with
  | nil => exact h
  | cons call rest ih =>
    simp only [List.foldl_cons]
    apply ih
    exact saveConfiguration_nodup _ _ h

/-- C6: after any sequence of saves from the empty store, whatever the
selection, the name, the description and the clock of each, no two entries of
`configuredSelections` have the same id. -/
theorem runSaves_one_configuration_per_id (calls : List SaveCall) :
    ((runSaves calls).configuredSelections.map (fun c => c.id)).Nodup :=
  foldl_applySave_nodup calls State.init (by simp [State.init])

/-- The store after a save on a store with at most one entry per id: the old
entries whose id is not selected, then the new entries in the order the engine
has put the selection array in. -/
theorem saveConfigurationWith_store_filter
    (sort : (JsString → JsString → Int) → List JsString → List JsString)
    (hsort : ∀ cmp arr, (sort cmp arr).Perm arr)
    (s : State) (now : Nat)
    (hname : trim s.modalVarName ≠ [])
    (hstore : (s.configuredSelections.map (fun c => c.id)).Nodup)
    (hsel : s.selectedElements.Nodup) :
    (saveConfigurationWith sort s now).configuredSelections =
        s.configuredSelections.filter (fun c => decide (c.id ∉ s.selectedElements)) ++
          (sort selectionCompare s.selectedElements).enum.map (fun p =>
            { id := p.2,
              variable_name := uniqueVarName (trim s.modalVarName)
                s.selectedElements.length p.1,
              description := trim s.modalContext,
              group_id := numberToString 36 now }) := by
  rw [saveConfigurationWith_store_eq sort hsort s now hname hsel,
    foldl_eraseP_eq_filter _ _ hstore, (hsort selectionCompare s.selectedElements).length_eq]
  congr 1
  apply List.filter_congr
  intro c _
  simp [(hsort selectionCompare s.selectedElements).mem_iff]

/-- The store after a save on a store with at most one entry per id: the old
entries whose id is not selected, then the new entries. -/
theorem saveConfiguration_store_filter (s : State) (now : Nat)
    (hname : trim s.modalVarName ≠ [])
    (hstore : (s.configuredSelections.map (fun c => c.id)).Nodup)
    (hsel : s.selectedElements.Nodup) :
    (saveConfiguration s now).configuredSelections =
        s.configuredSelections.filter (fun c => decide (c.id ∉ s.selectedElements)) ++
          (arraySort selectionCompare s.selectedElements).enum.map (fun p =>
            { id := p.2,
              variable_name := uniqueVarName (trim s.modalVarName)
                s.selectedElements.length p.1,
              description := trim s.modalContext,
              group_id := numberToString 36 now }) :=
  saveConfigurationWith_store_filter arraySort (fun cmp arr => arraySort_perm cmp arr)
    s now hname hstore hsel

/-- C7: whatever order the `sort` of the engine puts the selection array in
(of `sort` it is only assumed that it returns a permutation of the array it is
given), a save that is not rejected, made on a store with at most one entry
per id, leaves the old entries whose id is not selected, in their old order,
followed by one new entry per selected id in the order of that array; when no
selected id had an entry, this is the old store with the new entries
appended. -/
theorem saveConfiguration_replaces_then_appends
    (sort : (JsString → JsString → Int) → List JsString → List JsString)
    (hsort : ∀ cmp arr, (sort cmp arr).Perm arr)
    (s : State) (now : Nat)
    (hname : trim s.modalVarName ≠ [])
    (hstore : (s.configuredSelections.map (fun c => c.id)).Nodup)
    (hsel : s.selectedElements.Nodup) :
    (saveConfigurationWith sort s now).configuredSelections =
        s.configuredSelections.filter (fun c => decide (c.id ∉ s.selectedElements)) ++
          (sort selectionCompare s.selectedElements).enum.map (fun p =>
            { id := p.2,
              variable_name := uniqueVarName (trim s.modalVarName)
                s.selectedElements.length p.1,
              description := trim s.modalContext,
              group_id := numberToString 36 now }) ∧
    ((∀ c ∈ s.configuredSelections, c.id ∉ s.selectedElements) →
      (saveConfigurationWith sort s now).configuredSelections =
        s.configuredSelections ++
          (sort selectionCompare s.selectedElements).enum.map (fun p =>
            { id := p.2,
              variable_name := uniqueVarName (trim s.modalVarName)
                s.selectedElements.length p.1,
              description := trim s.modalContext,
              group_id := numberToString 36 now })) := by
  have hmain := saveConfigurationWith_store_filter sort hsort s now hname hstore hsel
  refine ⟨hmain, fun hnew => ?_⟩
  rw [hmain]
  congr 1
  apply List.filter_eq_self.mpr
  intro c hc
  simpa using hnew c hc

theorem saveConfiguration_replaces_then_appends_witness :
    (saveConfiguration
        { State.init with
          configuredSelections :=
            [{ id := "p_0".toList, variable_name := "Old".toList, description := [],
               group_id := "a".toList },
             { id := "p_1".toList, variable_name := "Kept".toList, description := [],
               group_id := "b".toList }],
          selectedElements := ["p_0".toList],
          modalVarName := "New".toList,
          modalContext := "d".toList } 1000).configuredSelections =
      [{ id := "p_1".toList, variable_name := "Kept".toList, description := [],
         group_id := "b".toList },
       { id := "p_0".toList, variable_name := "New".toList, description := "d".toList,
         group_id := "rs".toList }] := by
  have h := (saveConfiguration_replaces_then_appends arraySort
    (fun cmp arr => arraySort_perm cmp arr)
    { State.init with
      configuredSelections :=
        [{ id := "p_0".toList, variable_name := "Old".toList, description := [],
           group_id := "a".toList },
         { id := "p_1".toList, variable_name := "Kept".toList, description := [],
           group_id := "b".toList }],
      selectedElements := ["p_0".toList],
      modalVarName := "New".toList,
      modalContext := "d".toList } 1000 (by decide) (by decide) (by decide)).1
  show (saveConfigurationWith arraySort _ 1000).configuredSelections = _
  rw [h]
  decide


/-- What a save leaves in an empty store: nothing when the name is blank, else
one entry per selected id. -/
theorem createdBy_eq (call : SaveCall) (hsel : call.selection.Nodup)
    (hname : trim call.name ≠ []) :
    createdBy call =
      (arraySort selectionCompare call.selection).enum.map (fun p =>
        { id := p.2,
          variable_name := uniqueVarName (trim call.name)
            (arraySort selectionCompare call.selection).length p.1,
          description := trim call.context,
          group_id := numberToString 36 call.now }) := by
  unfold createdBy applySave
  rw [saveConfiguration_store_eq _ _ hname hsel]
  have hnil : (arraySort selectionCompare call.selection).foldl
      (fun acc id => acc.eraseP (fun c => c.id == id)) State.init.configuredSelections = [] :=
    List.sublist_nil.mp (foldl_eraseP_sublist _ _)
  simp only [hnil, List.nil_append]

theorem mem_applySave (s : State) (call : SaveCall) (hsel : call.selection.Nodup)
    (e : FieldConfiguration) (he : e ∈ (applySave s call).configuredSelections) :
    e ∈ s.configuredSelections ∨ e ∈ createdBy call := by
  by_cases hname : trim call.name = []
  · left
    unfold applySave at he
    rwa [saveConfiguration_store_of_blank _ _ hname] at he
  · rw [createdBy_eq call hsel hname]
    unfold applySave at he
    rw [saveConfiguration_store_eq _ _ hname hsel] at he
    rcases List.mem_append.mp he with h | h
    · left
      exact (foldl_eraseP_sublist _ _).subset h
    · right
      exact h

theorem createdBy_group_id (call : SaveCall) (hsel : call.selection.Nodup)
    (e : FieldConfiguration) (he : e ∈ createdBy call) :
    e.group_id = numberToString 36 call.now := by
  by_cases hname : trim call.name = []
  · unfold createdBy applySave at he
    rw [saveConfiguration_store_of_blank _ _ hname] at he
    simp [State.init] at he
  · rw [createdBy_eq call hsel hname] at he
    simp only [List.mem_map] at he
    obtain ⟨p, _, hp⟩ := he
    rw [← hp]

theorem mem_foldl_applySave (calls : List SaveCall) (s : State)
    (hsets : ∀ c ∈ calls, c.selection.Nodup) (e : FieldConfiguration)
    (he : e ∈ (calls.foldl applySave s).configuredSelections) :
    e ∈ s.configuredSelections ∨ ∃ c ∈ calls, e ∈ createdBy c := by
  induction calls generalizing s with
  | nil => exact Or.inl he
  | cons call rest ih =>
    simp only [List.foldl_cons] at he
    rcases ih (applySave s call) (fun c hc => hsets c (List.mem_cons_of_mem _ hc)) he with h | h
    · rcases mem_applySave s call (hsets call (by simp)) e h with h1 | h1
      · exact Or.inl h1
      · exact Or.inr ⟨call, by simp, h1⟩
    · obtain ⟨c, hc, hce⟩ := h
      exact Or.inr ⟨c, List.mem_cons_of_mem _ hc, hce⟩

/-- C8, at an input that breaks it: two saves made while the clock reads the
same millisecond give their configurations the same group id, so the store
holds two configurations with one group id that were created by different
saves. -/
theorem runSaves_same_clock_same_group_id :
    (runSaves
        [{ selection := ["p_0".toList], name := "A".toList, context := [],
           now := 1700000000000 },
         { selection := ["p_1".toList], name := "B".toList, context := [],
           now := 1700000000000 }]).configuredSelections =
      [{ id := "p_0".toList, variable_name := "A".toList, description := [],
         group_id := "loyw3v28".toList },
       { id := "p_1".toList, variable_name := "B".toList, description := [],
         group_id := "loyw3v28".toList }] ∧
    createdBy { selection := ["p_0".toList], name := "A".toList, context := [],
                now := 1700000000000 } =
      [{ id := "p_0".toList, variable_name := "A".toList, description := [],
         group_id := "loyw3v28".toList }] ∧
    createdBy { selection := ["p_1".toList], name := "B".toList, context := [],
                now := 1700000000000 } =
      [{ id := "p_1".toList, variable_name := "B".toList, description := [],
         group_id := "loyw3v28".toList }] := by
  decide

/-- C8, amended: in a sequence of saves whose clock readings are pairwise
different (each selection being a set), configurations created by two saves
never share a group id, and any two configurations of the resulting store that
share a group id were created by one and the same save of the sequence. -/
theorem runSaves_group_id_of_distinct_clocks (calls : List SaveCall)
    (hclock : (calls.map (fun c => c.now)).Nodup)
    (hsets : ∀ c ∈ calls, c.selection.Nodup) :
    (∀ c1 ∈ calls, ∀ c2 ∈ calls, c1 ≠ c2 →
      ∀ e1 ∈ createdBy c1, ∀ e2 ∈ createdBy c2, e1.group_id ≠ e2.group_id) ∧
    (∀ e1 ∈ (runSaves calls).configuredSelections,
      ∀ e2 ∈ (runSaves calls).configuredSelections,
      e1.group_id = e2.group_id → ∃ c ∈ calls, e1 ∈ createdBy c ∧ e2 ∈ createdBy c) := by
  have hsame : ∀ c1 ∈ calls, ∀ c2 ∈ calls, ∀ e1 ∈ createdBy c1, ∀ e2 ∈ createdBy c2,
      e1.group_id = e2.group_id → c1 = c2 := by
    intro c1 hc1 c2 hc2 e1 he1 e2 he2 hg
    rw [createdBy_group_id c1 (hsets c1 hc1) e1 he1,
      createdBy_group_id c2 (hsets c2 hc2) e2 he2] at hg
    have hnow := numberToString_injective 36 (by decide) (by decide) _ _ hg
    exact List.inj_on_of_nodup_map hclock hc1 hc2 hnow
  constructor
  · intro c1 hc1 c2 hc2 hne e1 he1 e2 he2 hg
    exact hne (hsame c1 hc1 c2 hc2 e1 he1 e2 he2 hg)
  · intro e1 he1 e2 he2 hg
    have h1 := mem_foldl_applySave calls State.init hsets e1 he1
    have h2 := mem_foldl_applySave calls State.init hsets e2 he2
    simp only [State.init, List.not_mem_nil, false_or] at h1 h2
    obtain ⟨c1, hc1, hce1⟩ := h1
    obtain ⟨c2, hc2, hce2⟩ := h2
    have hc : c1 = c2 := hsame c1 hc1 c2 hc2 e1 hce1 e2 hce2 hg
    subst hc
    exact ⟨c1, hc1, hce1, hce2⟩

theorem runSaves_group_id_of_distinct_clocks_witness :
    ([1000, 2000] : List Nat).Nodup ∧
    ∃ c ∈ ([{ selection := ["p_0".toList, "p_1".toList], name := "A".toList, context := [],
              now := 1000 },
            { selection := ["p_2".toList], name := "B".toList, context := [],
              now := 2000 }] : List SaveCall),
      ({ id := "p_0".toList, variable_name := "A||1".toList, description := [],
         group_id := "rs".toList } : FieldConfiguration) ∈ createdBy c ∧
      ({ id := "p_1".toList, variable_name := "A||2".toList, description := [],
         group_id := "rs".toList } : FieldConfiguration) ∈ createdBy c :=
  ⟨by decide,
   (runSaves_group_id_of_distinct_clocks
      [{ selection := ["p_0".toList, "p_1".toList], name := "A".toList, context := [],
         now := 1000 },
       { selection := ["p_2".toList], name := "B".toList, context := [],
         now := 2000 }] (by decide) (by decide)).2
      { id := "p_0".toList, variable_name := "A||1".toList, description := [],
        group_id := "rs".toList } (by decide)
      { id := "p_1".toList, variable_name := "A||2".toList, description := [],
        group_id := "rs".toList } (by decide) rfl⟩

/-- C9: a save that is not rejected, made with `N` ids selected, leaves a store
whose last `N` entries are new, one for each selected id, all with the group id
of this save and with the trimmed description, and whose entries before them
are old entries in their old order. In the scenario of the specification
(click on `t_0_r_0_c_0`, ctrl-click on `t_0_r_1_c_0`, save as `Name` with
description `desc` into the empty store) the store has exactly the two entries
`Name||1` and `Name||2`, with one group id and one description. -/
theorem saveConfiguration_appends_one_group :
    (∀ (s : State) (now : Nat), trim s.modalVarName ≠ [] → s.selectedElements.Nodup →
      ((saveConfiguration s now).configuredSelections.take
          ((saveConfiguration s now).configuredSelections.length -
            s.selectedElements.length)).Sublist s.configuredSelections ∧
      ((saveConfiguration s now).configuredSelections.drop
          ((saveConfiguration s now).configuredSelections.length -
            s.selectedElements.length)).length = s.selectedElements.length ∧
      (((saveConfiguration s now).configuredSelections.drop
          ((saveConfiguration s now).configuredSelections.length -
            s.selectedElements.length)).map (fun c => c.id)).Perm s.selectedElements ∧
      ∀ c ∈ (saveConfiguration s now).configuredSelections.drop
          ((saveConfiguration s now).configuredSelections.length -
            s.selectedElements.length),
        c.group_id = numberToString 36 now ∧ c.description = trim s.modalContext) ∧
    (∀ now : Nat,
      (saveConfiguration
          { handleSelection (handleSelection State.init false "t_0_r_0_c_0".toList) true
              "t_0_r_1_c_0".toList with
            modalVarName := "Name".toList, modalContext := "desc".toList }
          now).configuredSelections =
        [{ id := "t_0_r_0_c_0".toList, variable_name := "Name||1".toList,
           description := "desc".toList, group_id := numberToString 36 now },
         { id := "t_0_r_1_c_0".toList, variable_name := "Name||2".toList,
           description := "desc".toList, group_id := numberToString 36 now }]) := by
  constructor
  · intro s now hname hnd
    have hlen := arraySort_length selectionCompare s.selectedElements
    have hstore := saveConfiguration_store_eq s now hname hnd
    have hsub := foldl_eraseP_sublist (arraySort selectionCompare s.selectedElements)
      s.configuredSelections
    generalize (arraySort selectionCompare s.selectedElements).foldl
      (fun acc id => acc.eraseP (fun c => c.id == id)) s.configuredSelections = kept
      at hstore hsub
    have hk : (saveConfiguration s now).configuredSelections.length -
        s.selectedElements.length = kept.length := by
      rw [hstore]
      simp [hlen]
    rw [hk, hstore, List.take_left', List.drop_left']
    · refine ⟨hsub, by simp [hlen], ?_, ?_⟩
      · rw [List.map_map]
        have : (List.map ((fun c : FieldConfiguration => c.id) ∘ fun p : Nat × JsString =>
            ({ id := p.2,
               variable_name := uniqueVarName (trim s.modalVarName)
                 (arraySort selectionCompare s.selectedElements).length p.1,
               description := trim s.modalContext,
               group_id := numberToString 36 now } : FieldConfiguration))
            (arraySort selectionCompare s.selectedElements).enum) =
            List.map Prod.snd (arraySort selectionCompare s.selectedElements).enum := rfl
        rw [this, List.enum_map_snd]
        exact arraySort_perm _ _
      · intro c hc
        simp only [List.mem_map] at hc
        obtain ⟨p, _, hp⟩ := hc
        rw [← hp]
        exact ⟨rfl, rfl⟩
    · rfl
    · rfl
  · intro now
    rw [saveConfiguration_store _ _ (by decide)]
    have hsel : ({ handleSelection (handleSelection State.init false "t_0_r_0_c_0".toList) true
        "t_0_r_1_c_0".toList with
        modalVarName := "Name".toList, modalContext := "desc".toList } : State).selectedElements =
        ["t_0_r_0_c_0".toList, "t_0_r_1_c_0".toList] := by decide
    have hsort : arraySort selectionCompare ["t_0_r_0_c_0".toList, "t_0_r_1_c_0".toList] =
        ["t_0_r_0_c_0".toList, "t_0_r_1_c_0".toList] := by decide
    have hstore : ({ handleSelection (handleSelection State.init false "t_0_r_0_c_0".toList) true
        "t_0_r_1_c_0".toList with
        modalVarName := "Name".toList, modalContext := "desc".toList } :
        State).configuredSelections = [] := by decide
    have hn : trim "Name".toList = "Name".toList := by decide
    have hd : trim "desc".toList = "desc".toList := by decide
    have h1 : "Name".toList ++ "||".toList ++ numberToString 10 1 = "Name||1".toList := by
      decide
    have h2 : "Name".toList ++ "||".toList ++ numberToString 10 2 = "Name||2".toList := by
      decide
    rw [hsel, hsort, hstore]
    simp only [hn, hd, saveEach, saveOne_eq, uniqueVarName, List.length_cons, List.length_nil]
    simp only [zero_add, Nat.reduceAdd, Nat.one_lt_ofNat, if_true, h1, h2]
    have hne : ("t_0_r_0_c_0".toList == "t_0_r_1_c_0".toList) = false := by decide
    simp only [List.eraseP_nil, List.nil_append, List.eraseP_cons, hne, cond_false,
      List.singleton_append]

theorem saveConfiguration_appends_one_group_witness :
    ((saveConfiguration
        { State.init with
          selectedElements := ["p_0".toList, "p_1".toList],
          modalVarName := "X".toList } 1000).configuredSelections.drop
        ((saveConfiguration
            { State.init with
              selectedElements := ["p_0".toList, "p_1".toList],
              modalVarName := "X".toList } 1000).configuredSelections.length -
          2)).length = 2 :=
  (saveConfiguration_appends_one_group.1
    { State.init with
      selectedElements := ["p_0".toList, "p_1".toList],
      modalVarName := "X".toList } 1000 (by decide) (by decide)).2.1


/-! ## Facts about name suffixes -/

theorem isDigitIn_ten_iff (c : Char) :
    isDigitIn 10 c = true ↔ 48 ≤ c.toNat ∧ c.toNat ≤ 57 := by
  unfold isDigitIn digitVal
  simp only
  split_ifs with h1 h2 h3
  · simp only [decide_eq_true_eq]
    constructor
    · intro _
      exact h1
    · intro _
      omega
  · simp only [decide_eq_true_eq]
    constructor
    · intro h
      omega
    · intro h
      exact absurd h h1
  · simp only [decide_eq_true_eq]
    constructor
    · intro h
      omega
    · intro h
      exact absurd h h1
  · simp only [Bool.false_eq_true, false_iff]
    exact h1

theorem isDigitIn_digitChar : ∀ d, d < 10 → isDigitIn 10 (digitChar d) = true := by
  decide

theorem numberToString_all_digits (n : Nat) :
    ∀ c ∈ numberToString 10 n, isDigitIn 10 c = true := by
  intro c hc
  unfold numberToString at hc
  by_cases hn : n = 0
  · rw [if_pos hn] at hc
    simp only [List.mem_singleton] at hc
    subst hc
    decide
  · rw [if_neg hn, digitsLE_eq_digits 10 (by decide) n n (le_refl n)] at hc
    simp only [List.mem_map, List.mem_reverse] at hc
    obtain ⟨d, hd, hdc⟩ := hc
    rw [← hdc]
    exact isDigitIn_digitChar d (Nat.digits_lt_base (by decide) hd)

theorem digitsValue_reverse_map (b : Nat) (l : List Nat) (hl : ∀ d ∈ l, d < 36) :
    digitsValue b (l.reverse.map digitChar) = Nat.ofDigits b l := by
  induction l with
  | nil => rfl
  | cons d ds ih =>
    have hd : digitVal (digitChar d) = some d := digitVal_digitChar d (hl d (by simp))
    have ih' := ih (fun x hx => hl x (List.mem_cons_of_mem _ hx))
    unfold digitsValue at ih' ⊢
    simp only [List.reverse_cons, List.map_append, List.map_cons, List.map_nil,
      List.foldl_append, List.foldl_cons, List.foldl_nil, ih', hd, Option.getD_some,
      Nat.ofDigits_cons]
    ring

theorem digitsValue_numberToString (n : Nat) : digitsValue 10 (numberToString 10 n) = n := by
  unfold numberToString
  by_cases hn : n = 0
  · subst hn
    decide
  · rw [if_neg hn, digitsLE_eq_digits 10 (by decide) n n (le_refl n),
      digitsValue_reverse_map 10 _ (fun d hd => by
        have := Nat.digits_lt_base (b := 10) (m := n) (by decide) hd
        omega),
      Nat.ofDigits_digits]

/-- A name that ends in `||` and a numeral has that numeral as its suffix. -/
theorem suffixMatch_append (base ds : JsString) (hne : ds ≠ [])
    (hds : ∀ c ∈ ds, isDigitIn 10 c = true) :
    suffixMatch (base ++ "||".toList ++ ds) = some ds := by
  have hrev : (base ++ "||".toList ++ ds).reverse =
      ds.reverse ++ ('|' :: '|' :: base.reverse) := by
    simp [String.toList]
  have hds' : ∀ c ∈ ds.reverse, isDigitIn 10 c = true :=
    fun c hc => hds c (List.mem_reverse.mp hc)
  have hbar : isDigitIn 10 '|' = false := by decide
  unfold suffixMatch
  simp only [hrev, List.takeWhile_append_of_pos hds', List.dropWhile_append_of_pos hds',
    List.takeWhile_cons, List.dropWhile_cons, hbar, Bool.false_eq_true, if_false,
    List.append_nil, List.reverse_reverse]
  simp [hne]

theorem roundToDouble_of_lt (n : Nat) (h : n < 9007199254740992) : roundToDouble n = n := by
  unfold roundToDouble
  rw [if_pos h]

/-- On a non-empty run of decimal digits `parseInt` gives the Number value of
the value of the run. -/
theorem parseInt_digits (ds : JsString) (hne : ds ≠ [])
    (hds : ∀ c ∈ ds, isDigitIn 10 c = true) :
    parseInt ds = some (roundToDouble (digitsValue 10 ds) : Int) := by
  cases ds with
  | nil => exact absurd rfl hne
  | cons c cs =>
    have hc := (isDigitIn_ten_iff c).mp (hds c (by simp))
    have hws : isWhiteSpace c = false := by
      unfold isWhiteSpace
      simp only [Bool.or_eq_false_iff, beq_eq_false_iff_ne, ne_eq, Bool.and_eq_false_imp,
        decide_eq_true_eq, decide_eq_false_iff_not, not_le]
      omega
    have hminus : c ≠ '-' := by
      intro h
      subst h
      revert hc
      decide
    have hplus : c ≠ '+' := by
      intro h
      subst h
      revert hc
      decide
    have hx : ['0', 'x'].isPrefixOf (c :: cs) = false := by
      cases cs with
      | nil => simp [List.isPrefixOf]
      | cons d ds' =>
        have hd := (isDigitIn_ten_iff d).mp (hds d (by simp))
        have : d ≠ 'x' := by
          intro h
          subst h
          revert hd
          decide
        simp only [List.isPrefixOf, Bool.and_eq_false_imp, beq_iff_eq, Bool.and_true]
        intro _
        exact beq_eq_false_iff_ne.mpr (fun h => this h.symm)
    have hX : ['0', 'X'].isPrefixOf (c :: cs) = false := by
      cases cs with
      | nil => simp [List.isPrefixOf]
      | cons d ds' =>
        have hd := (isDigitIn_ten_iff d).mp (hds d (by simp))
        have : d ≠ 'X' := by
          intro h
          subst h
          revert hd
          decide
        simp only [List.isPrefixOf, Bool.and_eq_false_imp, beq_iff_eq, Bool.and_true]
        intro _
        exact beq_eq_false_iff_ne.mpr (fun h => this h.symm)
    have htake : (c :: cs).takeWhile (isDigitIn 10) = c :: cs :=
      List.takeWhile_eq_self_iff.mpr hds
    have hm : (some c == some '-') = false := by simpa using hminus
    have hp : (some c == some '+') = false := by simpa using hplus
    unfold parseInt
    simp only [List.dropWhile_cons, hws, Bool.false_eq_true, if_false, List.head?_cons,
      hm, hp, Bool.or_self, hx, hX, htake, List.isEmpty_cons]

theorem suffixNum_ranked (base : JsString) (n : Nat) (hn : n < 9007199254740992) :
    suffixNum (base ++ "||".toList ++ numberToString 10 n) = some (n : Int) := by
  unfold suffixNum
  rw [suffixMatch_append base _ (numberToString_ne_nil 10 n (by decide))
    (numberToString_all_digits n)]
  simp only
  rw [parseInt_digits _ (numberToString_ne_nil 10 n (by decide)) (numberToString_all_digits n),
    digitsValue_numberToString, roundToDouble_of_lt n hn]

/-! ## Facts about the grouped view -/

theorem lookup_groupedPush (grouped : List (JsString × List FieldConfiguration))
    (c : FieldConfiguration) (k : JsString) :
    (groupedPush grouped c).lookup k =
      if k = groupKey c then some ((grouped.lookup k).getD [] ++ [c])
      else grouped.lookup k := by
  induction grouped with
  | nil =>
    by_cases hk : k = groupKey c
    · subst hk
      simp [groupedPush]
    · have hb : (k == groupKey c) = false := beq_eq_false_iff_ne.mpr hk
      simp [groupedPush, List.lookup_cons, hk, hb]
  | cons p rest ih =>
    obtain ⟨k', grp⟩ := p
    unfold groupedPush
    by_cases h1 : k' = groupKey c
    · rw [if_pos h1]
      by_cases hk : k = k'
      · subst hk
        simp [h1]
      · have hk2 : ¬ k = groupKey c := fun h => hk (h.trans h1.symm)
        have hb : (k == k') = false := beq_eq_false_iff_ne.mpr hk
        simp [List.lookup_cons, hk2, hb]
    · rw [if_neg h1]
      by_cases hk : k = k'
      · subst hk
        simp [h1]
      · simp only [List.lookup_cons, beq_eq_false_iff_ne.mpr hk, ih]

theorem lookup_foldl_groupedPush (store : List FieldConfiguration)
    (grouped : List (JsString × List FieldConfiguration)) (k : JsString) :
    (store.foldl groupedPush grouped).lookup k =
      if store.filter (fun c => groupKey c == k) = [] then grouped.lookup k
      else some ((grouped.lookup k).getD [] ++ store.filter (fun c => groupKey c == k)) := by
  induction store generalizing grouped with
  | nil => simp
  | cons c cs ih =>
    simp only [List.foldl_cons, ih, lookup_groupedPush]
    by_cases hk : k = groupKey c
    · subst hk
      by_cases hcs : cs.filter (fun c' => groupKey c' == groupKey c) = []
      · simp [hcs, List.filter_cons]
      · simp [hcs, List.filter_cons]
    · have hk' : (groupKey c == k) = false := beq_eq_false_iff_ne.mpr (fun h => hk h.symm)
      simp [hk, hk', List.filter_cons]

theorem lookup_groupEntries (store : List FieldConfiguration) (k : JsString) :
    (groupEntries store).lookup k =
      if store.filter (fun c => groupKey c == k) = [] then none
      else some (store.filter (fun c => groupKey c == k)) := by
  unfold groupEntries
  rw [lookup_foldl_groupedPush]
  simp

theorem mem_objectKeys (grouped : List (JsString × List FieldConfiguration)) (k : JsString) :
    k ∈ objectKeys grouped ↔ k ∈ grouped.map Prod.fst := by
  unfold objectKeys
  simp only [List.mem_append, mem_arraySort, List.mem_filter, Bool.not_eq_true']
  constructor
  · rintro (h | h) <;> exact h.1
  · intro h
    cases hk : isArrayIndex k
    · exact Or.inr ⟨h, rfl⟩
    · exact Or.inl ⟨h, rfl⟩

theorem lookup_filterMap_keys {β γ : Type} (grouped : List (JsString × β)) (f : β → γ)
    (keys : List JsString) (k : JsString) :
    (keys.filterMap (fun k' => (grouped.lookup k').map (fun g => (k', f g)))).lookup k =
      if k ∈ keys then (grouped.lookup k).map f else none := by
  induction keys with
  | nil => simp
  | cons k' ks ih =>
    rw [List.filterMap_cons]
    cases hl : grouped.lookup k' with
    | none =>
      simp only [Option.map_none', ih]
      by_cases hk : k = k'
      · subst hk
        simp [hl]
      · simp [hk]
    | some g =>
      simp only [Option.map_some', List.lookup_cons]
      by_cases hk : k = k'
      · subst hk
        simp [hl]
      · have hb : (k == k') = false := beq_eq_false_iff_ne.mpr hk
        simp [hk, hb, ih]

/-- The group shown under key `k`: the entries of the store with that key, in
store order and then sorted if there is more than one. -/
theorem lookup_groupedView (store : List FieldConfiguration) (k : JsString) :
    (groupedView store).lookup k =
      if store.filter (fun c => groupKey c == k) = [] then none
      else some (sortedGroup (store.filter (fun c => groupKey c == k))) := by
  unfold groupedView
  simp only
  rw [lookup_filterMap_keys (groupEntries store) sortedGroup, lookup_groupEntries]
  by_cases hm : store.filter (fun c => groupKey c == k) = []
  · simp [hm]
  · have hk : k ∈ objectKeys (groupEntries store) := by
      rw [mem_objectKeys]
      have hl := lookup_groupEntries store k
      rw [if_neg hm] at hl
      have hsome : ((groupEntries store).lookup k).isSome = true := by simp [hl]
      rw [List.lookup_isSome_iff] at hsome
      obtain ⟨p, hp, hpk⟩ := hsome
      simp only [beq_iff_eq] at hpk
      exact List.mem_map.mpr ⟨p, hp, hpk.symm⟩
    simp [hm, hk]


theorem applySave_store (s : State) (call : SaveCall) (hname : trim call.name ≠ [])
    (hstore : (s.configuredSelections.map (fun c => c.id)).Nodup)
    (hsel : call.selection.Nodup) :
    (applySave s call).configuredSelections =
      s.configuredSelections.filter (fun c => decide (c.id ∉ call.selection)) ++
        createdBy call := by
  rw [createdBy_eq call hsel hname, arraySort_length]
  exact saveConfiguration_store_filter
    { s with selectedElements := call.selection, modalVarName := call.name,
             modalContext := call.context } call.now hname hstore hsel

theorem createdBy_groupKey (call : SaveCall) (hsel : call.selection.Nodup)
    (e : FieldConfiguration) (he : e ∈ createdBy call) :
    groupKey e = numberToString 36 call.now := by
  have h := createdBy_group_id call hsel e he
  unfold groupKey
  rw [if_pos (by rw [h]; exact numberToString_ne_nil 36 _ (by decide)), h]

theorem pairwise_enumFrom {α : Type} (l : List α) (n : Nat) :
    (l.enumFrom n).Pairwise (fun p q => p.1 < q.1) := by
  induction l generalizing n with
  | nil => simp
  | cons a as ih =>
    rw [List.enumFrom_cons, List.pairwise_cons]
    refine ⟨fun q hq => ?_, ih (n + 1)⟩
    have := List.le_fst_of_mem_enumFrom hq
    simp only
    omega

theorem mem_enumFrom_fst_lt {α : Type} (l : List α) (n : Nat) (p : Nat × α)
    (h : p ∈ l.enumFrom n) : p.1 < n + l.length := by
  induction l generalizing n with
  | nil => simp at h
  | cons a as ih =>
    rw [List.enumFrom_cons, List.mem_cons] at h
    rcases h with h | h
    · subst h
      simp
    · have := ih (n + 1) h
      simp only [List.length_cons]
      omega

/-- The entries of one save with more than one id (and fewer than `2 ^ 53`) are
in the order of their suffixes. -/
theorem createdBy_pairwise (call : SaveCall) (hsel : call.selection.Nodup)
    (hname : trim call.name ≠ []) (hlen : 1 < call.selection.length)
    (hsmall : call.selection.length < 9007199254740992) :
    (createdBy call).Pairwise (fun a b => groupCompare a b ≤ 0) := by
  rw [createdBy_eq call hsel hname]
  have hlen' : 1 < (arraySort selectionCompare call.selection).length := by
    rw [arraySort_length]
    exact hlen
  have hpw : ((arraySort selectionCompare call.selection).enumFrom 0).Pairwise
      (fun p q => p.1 < q.1 ∧ q.1 + 1 < 9007199254740992) := by
    refine (pairwise_enumFrom _ 0).imp_of_mem ?_
    intro p q _ hq hpq
    have := mem_enumFrom_fst_lt _ 0 q hq
    rw [arraySort_length] at this
    exact ⟨hpq, by omega⟩
  apply List.Pairwise.map _ _ hpw
  intro p q hpq
  simp only [groupCompare, uniqueVarName, hlen', if_true]
  rw [suffixNum_ranked _ _ (by omega), suffixNum_ranked _ _ hpq.2]
  simp only
  push_cast
  omega

theorem sortedGroup_of_pairwise (group : List FieldConfiguration)
    (h : group.Pairwise (fun a b => groupCompare a b ≤ 0)) : sortedGroup group = group := by
  unfold sortedGroup
  split
  · exact arraySort_of_chain groupCompare group h.chain'
  · rfl

theorem filter_groupKey_eq_nil (l : List FieldConfiguration) (k : JsString)
    (h : ∀ c ∈ l, groupKey c ≠ k) : l.filter (fun c => groupKey c == k) = [] := by
  apply List.filter_eq_nil_iff.mpr
  intro c hc
  simpa using h c hc

theorem filter_groupKey_eq_self (l : List FieldConfiguration) (k : JsString)
    (h : ∀ c ∈ l, groupKey c = k) : l.filter (fun c => groupKey c == k) = l := by
  apply List.filter_eq_self.mpr
  intro c hc
  simpa using h c hc

theorem createdBy_map_id (call : SaveCall) (hsel : call.selection.Nodup)
    (hname : trim call.name ≠ []) :
    (createdBy call).map (fun c => c.id) = arraySort selectionCompare call.selection := by
  rw [createdBy_eq call hsel hname, List.map_map]
  exact List.enum_map_snd _

theorem createdBy_single (call : SaveCall) (x : JsString) (hsel : call.selection = [x])
    (hname : trim call.name ≠ []) :
    createdBy call =
      [{ id := x, variable_name := trim call.name, description := trim call.context,
         group_id := numberToString 36 call.now }] := by
  have h := saveConfiguration_store_single
    { State.init with selectedElements := call.selection, modalVarName := call.name,
                      modalContext := call.context } call.now x hsel hname
  unfold createdBy applySave
  rw [h]
  simp [State.init]


/-- C10, at an input that breaks it: `p_0`, `p_1`, `p_2` are saved together as
`X`, then `p_1` is saved again on its own; the view showed one group of three
members before, and after the second save that group has two members while
`p_1` is shown as a group of its own. -/
theorem groupedView_replaced_member_leaves_group :
    groupedView (runSaves
        [{ selection := ["p_0".toList, "p_1".toList, "p_2".toList], name := "X".toList,
           context := "d".toList, now := 1000 }]).configuredSelections =
      [("rs".toList,
        [{ id := "p_0".toList, variable_name := "X||1".toList, description := "d".toList,
           group_id := "rs".toList },
         { id := "p_1".toList, variable_name := "X||2".toList, description := "d".toList,
           group_id := "rs".toList },
         { id := "p_2".toList, variable_name := "X||3".toList, description := "d".toList,
           group_id := "rs".toList }])] ∧
    groupedView (runSaves
        [{ selection := ["p_0".toList, "p_1".toList, "p_2".toList], name := "X".toList,
           context := "d".toList, now := 1000 },
         { selection := ["p_1".toList], name := "X".toList,
           context := "e".toList, now := 2000 }]).configuredSelections =
      [("rs".toList,
        [{ id := "p_0".toList, variable_name := "X||1".toList, description := "d".toList,
           group_id := "rs".toList },
         { id := "p_2".toList, variable_name := "X||3".toList, description := "d".toList,
           group_id := "rs".toList }]),
       ("1jk".toList,
        [{ id := "p_1".toList, variable_name := "X".toList, description := "e".toList,
           group_id := "1jk".toList }])] ∧
    (runSaves
        [{ selection := ["p_0".toList, "p_1".toList, "p_2".toList], name := "X".toList,
           context := "d".toList, now := 1000 },
         { selection := ["p_1".toList], name := "X".toList,
           context := "e".toList, now := 2000 }]).configuredList.map (fun i => i.heading) =
      ["X (2 fields)".toList, "X".toList] := by
  decide

/-- C10, amended: take a store with at most one entry per id, a save of three
ids that is not rejected, and then a save of one of those ids `x` alone, not
rejected and made at another clock reading, neither group id being a group key
of the store at the start. Before the second save the view shows the three
entries of the first save as one group, in the order they were created; after
it the view shows under that group id the two entries other than the one for
`x`, in the same order as before, and shows the new entry for `x` as a group
of one under the group id of the second save. -/
theorem groupedView_after_replacing_member (s : State) (first second : SaveCall)
    (x : JsString)
    (hstore : (s.configuredSelections.map (fun c => c.id)).Nodup)
    (hthree : first.selection.length = 3) (hset : first.selection.Nodup)
    (hname1 : trim first.name ≠ [])
    (hx : x ∈ first.selection) (hsecond : second.selection = [x])
    (hname2 : trim second.name ≠ [])
    (hclock : second.now ≠ first.now)
    (hfresh1 : ∀ c ∈ s.configuredSelections, groupKey c ≠ numberToString 36 first.now)
    (hfresh2 : ∀ c ∈ s.configuredSelections, groupKey c ≠ numberToString 36 second.now) :
    (groupedView (applySave s first).configuredSelections).lookup
        (numberToString 36 first.now) = some (createdBy first) ∧
    (createdBy first).length = 3 ∧
    (groupedView (applySave (applySave s first) second).configuredSelections).lookup
        (numberToString 36 first.now) =
      some ((createdBy first).filter (fun c => c.id != x)) ∧
    ((createdBy first).filter (fun c => c.id != x)).length = 2 ∧
    (groupedView (applySave (applySave s first) second).configuredSelections).lookup
        (numberToString 36 second.now) =
      some [{ id := x, variable_name := trim second.name,
              description := trim second.context,
              group_id := numberToString 36 second.now }] := by
  have hset2 : second.selection.Nodup := by
    rw [hsecond]
    simp
  have hg : numberToString 36 second.now ≠ numberToString 36 first.now :=
    fun h => hclock (numberToString_injective 36 (by decide) (by decide) _ _ h)
  have hids : (createdBy first).map (fun c => c.id) =
      arraySort selectionCompare first.selection := createdBy_map_id first hset hname1
  -- sizes
  have hlen3 : (createdBy first).length = 3 := by
    have := congrArg List.length hids
    rw [List.length_map, arraySort_length, hthree] at this
    exact this
  have hlen2 : ((createdBy first).filter (fun c => c.id != x)).length = 2 := by
    have h1 : ((createdBy first).filter (fun c => c.id != x)).map (fun c => c.id) =
        ((createdBy first).map (fun c => c.id)).filter (fun i => i != x) := by
      rw [List.filter_map]
      rfl
    have h2 := congrArg List.length h1
    rw [List.length_map, hids, ← (arraySort_nodup selectionCompare hset).erase_eq_filter x,
      List.length_erase_of_mem ((mem_arraySort _ _ _).mpr hx), arraySort_length, hthree] at h2
    exact h2
  -- the two stores
  have hs1 := applySave_store s first hname1 hstore hset
  have hstore1 : ((applySave s first).configuredSelections.map (fun c => c.id)).Nodup :=
    saveConfiguration_nodup _ _ hstore
  have hs2 := applySave_store (applySave s first) second hname2 hstore1 hset2
  have hsingle := createdBy_single second x hsecond hname2
  -- members of the first group before the second save
  have hkey1 : ∀ c ∈ createdBy first, groupKey c = numberToString 36 first.now :=
    fun c hc => createdBy_groupKey first hset c hc
  have hkey2 : ∀ c ∈ createdBy second, groupKey c = numberToString 36 second.now :=
    fun c hc => createdBy_groupKey second hset2 c hc
  have hold1 : ∀ c ∈ s.configuredSelections.filter
      (fun c => decide (c.id ∉ first.selection)), groupKey c ≠ numberToString 36 first.now :=
    fun c hc => hfresh1 c (List.mem_filter.mp hc).1
  have hold2 : ∀ c ∈ s.configuredSelections.filter
      (fun c => decide (c.id ∉ first.selection)), groupKey c ≠ numberToString 36 second.now :=
    fun c hc => hfresh2 c (List.mem_filter.mp hc).1
  have hm1 : (applySave s first).configuredSelections.filter
      (fun c => groupKey c == numberToString 36 first.now) = createdBy first := by
    rw [hs1, List.filter_append, filter_groupKey_eq_nil _ _ hold1,
      filter_groupKey_eq_self _ _ hkey1, List.nil_append]
  have hm1' : (applySave s first).configuredSelections.filter
      (fun c => groupKey c == numberToString 36 second.now) = [] := by
    rw [hs1, List.filter_append, filter_groupKey_eq_nil _ _ hold2,
      filter_groupKey_eq_nil _ _ (fun c hc => by rw [hkey1 c hc]; exact hg.symm),
      List.append_nil]
  have hpred : ∀ l : List FieldConfiguration,
      l.filter (fun c => decide (c.id ∉ second.selection)) = l.filter (fun c => c.id != x) := by
    intro l
    apply List.filter_congr
    intro c _
    rw [hsecond]
    by_cases hc : c.id = x <;> simp [hc]
  have hm2 : (applySave (applySave s first) second).configuredSelections.filter
      (fun c => groupKey c == numberToString 36 first.now) =
      (createdBy first).filter (fun c => c.id != x) := by
    rw [hs2, List.filter_append, hpred, List.filter_comm, hm1,
      filter_groupKey_eq_nil _ _ (fun c hc => by rw [hkey2 c hc]; exact hg),
      List.append_nil]
  have hm2' : (applySave (applySave s first) second).configuredSelections.filter
      (fun c => groupKey c == numberToString 36 second.now) = createdBy second := by
    rw [hs2, List.filter_append, hpred, List.filter_comm, hm1', List.filter_nil,
      filter_groupKey_eq_self _ _ hkey2, List.nil_append]
  have hpw := createdBy_pairwise first hset hname1 (by omega) (by omega)
  refine ⟨?_, hlen3, ?_, hlen2, ?_⟩
  · rw [lookup_groupedView, hm1, sortedGroup_of_pairwise _ hpw]
    rw [if_neg]
    intro h
    rw [h] at hlen3
    simp at hlen3
  · rw [lookup_groupedView, hm2, sortedGroup_of_pairwise _ (hpw.filter _)]
    rw [if_neg]
    intro h
    rw [h] at hlen2
    simp at hlen2
  · rw [lookup_groupedView, hm2', hsingle]
    simp [sortedGroup]

theorem groupedView_after_replacing_member_witness :
    (groupedView (applySave (applySave State.init
        { selection := ["p_0".toList, "p_1".toList, "p_2".toList], name := "X".toList,
          context := "d".toList, now := 1000 })
        { selection := ["p_1".toList], name := "Y".toList, context := "e".toList,
          now := 2000 }).configuredSelections).lookup (numberToString 36 1000) =
      some ((createdBy
        { selection := ["p_0".toList, "p_1".toList, "p_2".toList], name := "X".toList,
          context := "d".toList, now := 1000 }).filter (fun c => c.id != "p_1".toList)) ∧
    ((createdBy
        { selection := ["p_0".toList, "p_1".toList, "p_2".toList], name := "X".toList,
          context := "d".toList, now := 1000 }).filter
        (fun c => c.id != "p_1".toList)).length = 2 :=
  have h := groupedView_after_replacing_member State.init
    { selection := ["p_0".toList, "p_1".toList, "p_2".toList], name := "X".toList,
      context := "d".toList, now := 1000 }
    { selection := ["p_1".toList], name := "Y".toList, context := "e".toList, now := 2000 }
    "p_1".toList (by decide) (by decide) (by decide) (by decide) (by decide) rfl
    (by decide) (by decide) (by decide) (by decide)
  ⟨h.2.2.1, h.2.2.2.1⟩

/-! ## Facts about the suffix of a name -/

theorem suffixInteger_append (base ds : JsString) (hne : ds ≠ [])
    (hds : ∀ c ∈ ds, isDigitIn 10 c = true) :
    suffixInteger (base ++ "||".toList ++ ds) = digitsValue 10 ds := by
  have hbar : isDigitIn 10 '|' = false := by decide
  induction base with
  | nil =>
    have hall : ds.all (isDigitIn 10) = true := List.all_eq_true.mpr hds
    show suffixInteger ('|' :: '|' :: ds) = digitsValue 10 ds
    unfold suffixInteger
    simp [hne, hall]
  | cons c cs ih =>
    show suffixInteger (c :: (cs ++ "||".toList ++ ds)) = digitsValue 10 ds
    unfold suffixInteger
    have hnot : ¬ (c = '|' ∧ (cs ++ "||".toList ++ ds).head? = some '|' ∧
        (cs ++ "||".toList ++ ds).tail ≠ [] ∧
        (cs ++ "||".toList ++ ds).tail.all (isDigitIn 10) = true) := by
      rintro ⟨_, _, _, hall⟩
      have hmem : '|' ∈ (cs ++ "||".toList ++ ds).tail := by
        cases cs with
        | nil => simp [String.toList]
        | cons d ds' => simp [String.toList]
      have := List.all_eq_true.mp hall '|' hmem
      rw [hbar] at this
      exact Bool.false_ne_true this
    rw [if_neg hnot]
    exact ih

/-- A match of the pattern splits the name into a base, `||` and the digits. -/
theorem suffixMatch_eq_some (name ds : JsString) (h : suffixMatch name = some ds) :
    ∃ base, name = base ++ "||".toList ++ ds ∧ ds ≠ [] ∧ ∀ c ∈ ds, isDigitIn 10 c = true := by
  unfold suffixMatch at h
  simp only at h
  split at h
  · next r hdrop =>
    split at h
    · exact absurd h (by simp)
    · next hne =>
      simp only [Option.some.injEq] at h
      refine ⟨r.reverse, ?_, ?_, ?_⟩
      · have hsplit := List.takeWhile_append_dropWhile (isDigitIn 10) name.reverse
        rw [hdrop] at hsplit
        have := congrArg List.reverse hsplit
        rw [List.reverse_reverse, List.reverse_append, h] at this
        rw [← this]
        simp [String.toList]
      · intro hnil
        rw [← h] at hnil
        exact hne (by simp [hnil])
      · intro c hc
        rw [← h, List.mem_reverse] at hc
        exact List.mem_takeWhile_imp hc
  · exact absurd h (by simp)

theorem suffixInteger_of_no_match (name : JsString) (h : suffixMatch name = none) :
    suffixInteger name = 0 := by
  induction name with
  | nil => rfl
  | cons c cs ih =>
    unfold suffixInteger
    split
    · next hcond =>
      obtain ⟨hc, hhead, hne, hall⟩ := hcond
      exfalso
      have hcs : cs = '|' :: cs.tail := by
        cases cs with
        | nil => simp at hhead
        | cons d ds' =>
          simp only [List.head?_cons, Option.some.injEq] at hhead
          simp [hhead]
      have hname : c :: cs = [] ++ "||".toList ++ cs.tail := by
        rw [hc, hcs]
        simp [String.toList]
      rw [hname, suffixMatch_append [] cs.tail hne (List.all_eq_true.mp hall)] at h
      exact absurd h (by simp)
    · apply ih
      cases hm : suffixMatch cs with
      | none => rfl
      | some ds =>
        exfalso
        obtain ⟨base, hbase, hne, hds⟩ := suffixMatch_eq_some cs ds hm
        have hname : c :: cs = (c :: base) ++ "||".toList ++ ds := by
          rw [hbase]
          simp
        rw [hname, suffixMatch_append (c :: base) ds hne hds] at h
        exact absurd h (by simp)

/-- The number the comparator of the list reads off a name is the Number value
of the integer after the final `||`, and 0 for a name without such a suffix. -/
theorem suffixNum_eq_suffixInteger (name : JsString) :
    suffixNum name = some (roundToDouble (suffixInteger name) : Int) := by
  cases hm : suffixMatch name with
  | none =>
    unfold suffixNum
    rw [hm, suffixInteger_of_no_match name hm]
    rfl
  | some ds =>
    obtain ⟨base, hbase, hne, hds⟩ := suffixMatch_eq_some name ds hm
    unfold suffixNum
    rw [hm]
    simp only
    rw [parseInt_digits ds hne hds, hbase, suffixInteger_append base ds hne hds]

theorem groupCompare_eq (a b : FieldConfiguration) :
    groupCompare a b =
      (roundToDouble (suffixInteger a.variable_name) : Int) -
        (roundToDouble (suffixInteger b.variable_name) : Int) := by
  unfold groupCompare
  rw [suffixNum_eq_suffixInteger, suffixNum_eq_suffixInteger]

/-! ## Facts about the groups of the view -/

theorem groupedPush_keys (grouped : List (JsString × List FieldConfiguration))
    (c : FieldConfiguration) :
    (groupedPush grouped c).map Prod.fst =
      if groupKey c ∈ grouped.map Prod.fst then grouped.map Prod.fst
      else grouped.map Prod.fst ++ [groupKey c] := by
  induction grouped with
  | nil => simp [groupedPush]
  | cons p rest ih =>
    obtain ⟨k, g⟩ := p
    unfold groupedPush
    by_cases hk : k = groupKey c
    · simp [hk]
    · have hk' : ¬ groupKey c = k := fun h => hk h.symm
      rw [if_neg hk]
      simp only [List.map_cons, ih, List.mem_cons, hk', false_or]
      split <;> simp

theorem groupedPush_keys_nodup (grouped : List (JsString × List FieldConfiguration))
    (c : FieldConfiguration) (h : (grouped.map Prod.fst).Nodup) :
    ((groupedPush grouped c).map Prod.fst).Nodup := by
  rw [groupedPush_keys]
  split
  · exact h
  · next hnot =>
    apply List.Nodup.append h (by simp)
    intro a ha hb
    simp only [List.mem_singleton] at hb
    subst hb
    exact hnot ha

theorem foldl_groupedPush_keys_nodup (store : List FieldConfiguration)
    (grouped : List (JsString × List FieldConfiguration))
    (h : (grouped.map Prod.fst).Nodup) :
    ((store.foldl groupedPush grouped).map Prod.fst).Nodup := by
  induction store generalizing grouped with
  | nil => exact h
  | cons c cs ih => exact ih _ (groupedPush_keys_nodup grouped c h)

theorem objectKeys_nodup (grouped : List (JsString × List FieldConfiguration))
    (h : (grouped.map Prod.fst).Nodup) : (objectKeys grouped).Nodup := by
  unfold objectKeys
  simp only
  apply List.Nodup.append (arraySort_nodup _ (h.filter _)) (h.filter _)
  intro a ha hb
  rw [mem_arraySort] at ha
  have h1 := (List.mem_filter.mp ha).2
  have h2 := (List.mem_filter.mp hb).2
  simp [h1] at h2

theorem groupedView_keys_nodup (store : List FieldConfiguration) :
    ((groupedView store).map Prod.fst).Nodup := by
  have hkeys : (objectKeys (groupEntries store)).Nodup :=
    objectKeys_nodup _ (foldl_groupedPush_keys_nodup store [] (by simp))
  unfold groupedView
  simp only
  have hmap : ((objectKeys (groupEntries store)).filterMap (fun k =>
      ((groupEntries store).lookup k).map (fun group => (k, sortedGroup group)))).map Prod.fst =
      (objectKeys (groupEntries store)).filterMap (fun k =>
        ((groupEntries store).lookup k).map (fun _ => k)) := by
    rw [List.map_filterMap]
    congr 1
    funext k
    cases (groupEntries store).lookup k <;> rfl
  rw [hmap]
  refine hkeys.sublist ?_
  have hsub : ∀ l : List JsString, (l.filterMap (fun k =>
      ((groupEntries store).lookup k).map (fun _ => k))).Sublist l := by
    intro l
    induction l with
    | nil => simp
    | cons a as ih =>
      rw [List.filterMap_cons]
      cases (groupEntries store).lookup a with
      | none => exact (ih).trans (List.sublist_cons_self a as)
      | some g => exact ih.cons₂ a
  exact hsub _

/-- Every group of the view is the sorted list of the entries that have its key. -/
theorem mem_groupedView (store : List FieldConfiguration)
    (kg : JsString × List FieldConfiguration) (h : kg ∈ groupedView store) :
    store.filter (fun c => groupKey c == kg.1) ≠ [] ∧
      kg.2 = sortedGroup (store.filter (fun c => groupKey c == kg.1)) := by
  unfold groupedView at h
  simp only [List.mem_filterMap, Option.map_eq_some'] at h
  obtain ⟨k, _, g, hg, hkg⟩ := h
  rw [lookup_groupEntries] at hg
  subst hkg
  simp only
  split at hg
  · exact absurd hg (by simp)
  · next hne =>
    simp only [Option.some.injEq] at hg
    subst hg
    exact ⟨hne, rfl⟩

theorem groupedView_mem_of_lookup (store : List FieldConfiguration) (k : JsString)
    (g : List FieldConfiguration) (h : (groupedView store).lookup k = some g) :
    (k, g) ∈ groupedView store := by
  obtain ⟨l₁, l₂, hl, _⟩ := List.lookup_eq_some_iff.mp h
  rw [hl]
  simp

theorem sortedGroup_perm (group : List FieldConfiguration) :
    (sortedGroup group).Perm group := by
  unfold sortedGroup
  split
  · exact arraySort_perm _ _
  · exact List.Perm.refl _

/-- A group of more than one member is listed in ascending order of the Number
values of the suffixes. -/
theorem sortedGroup_pairwise_number (group : List FieldConfiguration) (h : 1 < group.length) :
    (sortedGroup group).Pairwise
      (fun a b => roundToDouble (suffixInteger a.variable_name) ≤
        roundToDouble (suffixInteger b.variable_name)) := by
  unfold sortedGroup
  rw [if_pos h]
  have hp := arraySort_pairwise groupCompare
    (fun c => (roundToDouble (suffixInteger c.variable_name) : Int)) group
    (fun a _ b _ => groupCompare_eq a b)
  exact hp.imp (fun hab => by
    simp only at hab
    exact_mod_cast hab)

/-- A group of more than one member whose suffixes are below `2 ^ 53` is listed
in ascending order of the suffixes. -/
theorem sortedGroup_pairwise (group : List FieldConfiguration) (h : 1 < group.length)
    (hbound : ∀ c ∈ group, suffixInteger c.variable_name < 9007199254740992) :
    (sortedGroup group).Pairwise
      (fun a b => suffixInteger a.variable_name ≤ suffixInteger b.variable_name) := by
  refine (sortedGroup_pairwise_number group h).imp_of_mem ?_
  intro a b ha hb hab
  rw [roundToDouble_of_lt _ (hbound a ((sortedGroup_perm group).mem_iff.mp ha)),
    roundToDouble_of_lt _ (hbound b ((sortedGroup_perm group).mem_iff.mp hb))] at hab
  exact hab

theorem groupEach_eq_some (store : List FieldConfiguration)
    (grouped : List (JsString × List FieldConfiguration))
    (hown : ∀ e ∈ store, groupKey e ∉ inheritedKeys) :
    groupEach store grouped = some (store.foldl groupedPush grouped) := by
  induction store generalizing grouped with
  | nil => rfl
  | cons c cs ih =>
    unfold groupEach
    rw [if_neg (hown c (by simp)), List.foldl_cons]
    exact ih _ (fun e he => hown e (List.mem_cons_of_mem _ he))

theorem groupEach_eq_none (store : List FieldConfiguration)
    (grouped : List (JsString × List FieldConfiguration))
    (e : FieldConfiguration) (he : e ∈ store) (hkey : groupKey e ∈ inheritedKeys) :
    groupEach store grouped = none := by
  induction store generalizing grouped with
  | nil => simp at he
  | cons c cs ih =>
    unfold groupEach
    by_cases hc : groupKey c ∈ inheritedKeys
    · rw [if_pos hc]
    · rw [if_neg hc]
      rcases List.mem_cons.mp he with h | h
      · subst h
        exact absurd hkey hc
      · exact ih _ h

/-- When no key of the store is an inherited one, the grouping runs to its end
and the view built is `groupedView`. -/
theorem groupedViewBuilt_eq_some (store : List FieldConfiguration)
    (hown : ∀ e ∈ store, groupKey e ∉ inheritedKeys) :
    groupedViewBuilt store = some (groupedView store) := by
  unfold groupedViewBuilt
  rw [groupEach_eq_some store [] hown]
  rfl

/-- An inherited key anywhere in the store stops the grouping. -/
theorem groupedViewBuilt_eq_none (store : List FieldConfiguration)
    (e : FieldConfiguration) (he : e ∈ store) (hkey : groupKey e ∈ inheritedKeys) :
    groupedViewBuilt store = none := by
  unfold groupedViewBuilt
  rw [groupEach_eq_none store [] e he hkey]
  rfl

/-- C11, at two inputs that break it. First: two saves at one clock reading,
one id each, with the names `x||9007199254740993` and `x||9007199254740992`,
leave two entries with the same `group_id`; `parseInt` reads both suffixes as
the Number `9007199254740992`, the comparator answers 0, and the view lists the
member with the greater integer first. Second: two entries whose `group_id` is
`constructor` have the same `group_id`, yet the grouping is stopped by a
`TypeError`, no view is built and the list shows no group. -/
theorem groupedView_not_ascending_or_not_built :
    groupedViewBuilt (runSaves
        [{ selection := ["p_0".toList], name := "x||9007199254740993".toList,
           context := [], now := 1000 },
         { selection := ["p_1".toList], name := "x||9007199254740992".toList,
           context := [], now := 1000 }]).configuredSelections =
      some [("rs".toList,
        [{ id := "p_0".toList, variable_name := "x||9007199254740993".toList,
           description := [], group_id := "rs".toList },
         { id := "p_1".toList, variable_name := "x||9007199254740992".toList,
           description := [], group_id := "rs".toList }])] ∧
    suffixInteger "x||9007199254740993".toList = 9007199254740993 ∧
    suffixInteger "x||9007199254740992".toList = 9007199254740992 ∧
    suffixNum "x||9007199254740993".toList = some 9007199254740992 ∧
    suffixNum "x||9007199254740992".toList = some 9007199254740992 ∧
    ¬ [({ id := "p_0".toList, variable_name := "x||9007199254740993".toList,
          description := [], group_id := "rs".toList } : FieldConfiguration),
        { id := "p_1".toList, variable_name := "x||9007199254740992".toList,
          description := [], group_id := "rs".toList }].Pairwise
        (fun a b => suffixInteger a.variable_name ≤ suffixInteger b.variable_name) ∧
    groupedViewBuilt
        [{ id := "p_0".toList, variable_name := "X||1".toList, description := [],
           group_id := "constructor".toList },
         { id := "p_1".toList, variable_name := "X||2".toList, description := [],
           group_id := "constructor".toList }] = none ∧
    (updateConfiguredListUI
        { State.init with
          configuredSelections :=
            [{ id := "p_0".toList, variable_name := "X||1".toList, description := [],
               group_id := "constructor".toList },
             { id := "p_1".toList, variable_name := "X||2".toList, description := [],
               group_id := "constructor".toList }] }).configuredList = [] := by
  decide

/-- C11, amended: for a store in which no entry has the name of a property
inherited from `Object.prototype` as its key, the key of an entry being its
`group_id` and, when that is missing, its own id, and in which the integer that
follows the final `||` of every variable name (0 for a name without such a
suffix) is below `2 ^ 53`: `updateConfiguredListUI` builds a view; in it no key
heads two groups, every group is made of exactly the entries of the store that
have its key, and two entries of the store are in one group exactly when their
keys are equal; every group of more than one member is listed in ascending
order of that integer. The children of the configured list are the renderings
of these groups, in this order. -/
theorem groupedView_groups_by_key_sorted_by_suffix (store : List FieldConfiguration)
    (hown : ∀ e ∈ store,
      (if e.group_id ≠ [] then e.group_id else e.id) ∉ inheritedKeys)
    (hbound : ∀ e ∈ store, suffixInteger e.variable_name < 9007199254740992) :
    groupedViewBuilt store = some (groupedView store) ∧
    ((groupedView store).map Prod.fst).Nodup ∧
    (∀ kg ∈ groupedView store,
      kg.2 ≠ [] ∧ kg.2.Perm (store.filter (fun c => groupKey c == kg.1))) ∧
    (∀ e1 ∈ store, ∀ e2 ∈ store,
      (∃ kg ∈ groupedView store, e1 ∈ kg.2 ∧ e2 ∈ kg.2) ↔
        (if e1.group_id ≠ [] then e1.group_id else e1.id) =
          (if e2.group_id ≠ [] then e2.group_id else e2.id)) ∧
    (∀ kg ∈ groupedView store, 1 < kg.2.length →
      kg.2.Pairwise
        (fun a b => suffixInteger a.variable_name ≤ suffixInteger b.variable_name)) ∧
    (∀ s : State, s.configuredSelections = store →
      (updateConfiguredListUI s).configuredList =
        (groupedView store).map (fun kg => renderGroup kg.2)) := by
  have hbuilt : groupedViewBuilt store = some (groupedView store) :=
    groupedViewBuilt_eq_some store hown
  refine ⟨hbuilt, groupedView_keys_nodup store, ?_, ?_, ?_, ?_⟩
  · intro kg hkg
    obtain ⟨hne, heq⟩ := mem_groupedView store kg hkg
    rw [heq]
    refine ⟨fun hnil => hne ?_, sortedGroup_perm _⟩
    have hp := sortedGroup_perm (store.filter (fun c => groupKey c == kg.1))
    rw [hnil] at hp
    exact hp.symm.eq_nil
  · intro e1 he1 e2 he2
    show (∃ kg ∈ groupedView store, e1 ∈ kg.2 ∧ e2 ∈ kg.2) ↔ groupKey e1 = groupKey e2
    constructor
    · rintro ⟨kg, hkg, h1, h2⟩
      obtain ⟨_, heq⟩ := mem_groupedView store kg hkg
      rw [heq] at h1 h2
      have h1' := (List.mem_filter.mp ((sortedGroup_perm _).mem_iff.mp h1)).2
      have h2' := (List.mem_filter.mp ((sortedGroup_perm _).mem_iff.mp h2)).2
      simp only [beq_iff_eq] at h1' h2'
      rw [h1', h2']
    · intro hkey
      have hm1 : e1 ∈ store.filter (fun c => groupKey c == groupKey e1) :=
        List.mem_filter.mpr ⟨he1, by simp⟩
      have hm2 : e2 ∈ store.filter (fun c => groupKey c == groupKey e1) :=
        List.mem_filter.mpr ⟨he2, by simp [hkey]⟩
      have hne : store.filter (fun c => groupKey c == groupKey e1) ≠ [] :=
        List.ne_nil_of_mem hm1
      have hl := lookup_groupedView store (groupKey e1)
      rw [if_neg hne] at hl
      exact ⟨_, groupedView_mem_of_lookup store _ _ hl,
        (sortedGroup_perm _).mem_iff.mpr hm1, (sortedGroup_perm _).mem_iff.mpr hm2⟩
  · intro kg hkg hlen
    obtain ⟨_, heq⟩ := mem_groupedView store kg hkg
    rw [heq] at hlen ⊢
    apply sortedGroup_pairwise
    · rw [← (sortedGroup_perm _).length_eq]
      exact hlen
    · exact fun c hc => hbound c (List.mem_filter.mp hc).1
  · intro s hs
    subst hs
    unfold updateConfiguredListUI
    rw [hbuilt]

theorem groupedView_groups_by_key_sorted_by_suffix_witness :
    groupedViewBuilt
        [{ id := "p_0".toList, variable_name := "X||2".toList, description := [],
           group_id := "g".toList },
         { id := "p_9".toList, variable_name := "Alone".toList, description := [],
           group_id := [] },
         { id := "p_1".toList, variable_name := "X||1".toList, description := [],
           group_id := "g".toList }] =
      some (groupedView
        [{ id := "p_0".toList, variable_name := "X||2".toList, description := [],
           group_id := "g".toList },
         { id := "p_9".toList, variable_name := "Alone".toList, description := [],
           group_id := [] },
         { id := "p_1".toList, variable_name := "X||1".toList, description := [],
           group_id := "g".toList }]) ∧
    [({ id := "p_1".toList, variable_name := "X||1".toList, description := [],
        group_id := "g".toList } : FieldConfiguration),
     { id := "p_0".toList, variable_name := "X||2".toList, description := [],
       group_id := "g".toList }].Pairwise
      (fun a b => suffixInteger a.variable_name ≤ suffixInteger b.variable_name) :=
  have h := groupedView_groups_by_key_sorted_by_suffix
    [{ id := "p_0".toList, variable_name := "X||2".toList, description := [],
       group_id := "g".toList },
     { id := "p_9".toList, variable_name := "Alone".toList, description := [],
       group_id := [] },
     { id := "p_1".toList, variable_name := "X||1".toList, description := [],
       group_id := "g".toList }] (by decide) (by decide)
  ⟨h.1, h.2.2.2.2.1
    ("g".toList,
      [{ id := "p_1".toList, variable_name := "X||1".toList, description := [],
         group_id := "g".toList },
       { id := "p_0".toList, variable_name := "X||2".toList, description := [],
         group_id := "g".toList }])
    (by decide) (by decide)⟩

/-! ## Facts about the selection handlers on the page -/

theorem highlightColumn_page (p : Page) (tableId : JsString) (colIdx : Option Int)
    (active : Bool) :
    (p.highlightColumn tableId colIdx active).page.state = p.state ∧
      (p.highlightColumn tableId colIdx active).page.document = p.document := by
  unfold Page.highlightColumn
  split <;> exact ⟨rfl, rfl⟩

/-- `highlightColumn` runs to its end when the id names a table or nothing. -/
theorem highlightColumn_done (p : Page) (tableId : JsString) (colIdx : Option Int)
    (active : Bool)
    (h : (match getElementById p.document tableId with
          | none => true
          | some (Node.table _) => true
          | some _ => false) = true) :
    (p.highlightColumn tableId colIdx active).threw = false := by
  unfold Page.highlightColumn
  split
  · rfl
  · rfl
  · next el hnt heq =>
    exfalso
    rw [heq] at h
    cases el with
    | table t => exact hnt t rfl
    | paragraph i => exact Bool.false_ne_true h
    | cell t r c => exact Bool.false_ne_true h
    | colBtn t c => exact Bool.false_ne_true h

theorem clearEach_page (p : Page) (members : List JsString) :
    (clearEach p members).page.state = p.state ∧
      (clearEach p members).page.document = p.document := by
  induction members generalizing p with
  | nil => exact ⟨rfl, rfl⟩
  | cons id rest ih =>
    unfold clearEach
    split
    · simp only
      split
      · next q heq =>
        have h := highlightColumn_page p
          (((jsSplit id "_col_".toList)[0]?).getD "undefined".toList) (colIdxOf id) false
        rw [heq] at h
        exact h
      · next q heq =>
        have h := highlightColumn_page p
          (((jsSplit id "_col_".toList)[0]?).getD "undefined".toList) (colIdxOf id) false
        rw [heq] at h
        exact ⟨(ih _).1.trans h.1, (ih _).2.trans h.2⟩
    · exact ih _

/-- The loop of `clearSelection` runs to its end when every member that
contains `_col_` names a table or nothing before it. -/
theorem clearEach_done (p : Page) (members : List JsString)
    (h : ∀ id ∈ members, columnPartResolves p.document id = true) :
    (clearEach p members).threw = false := by
  induction members generalizing p with
  | nil => rfl
  | cons id rest ih =>
    have hid := h id (by simp)
    have hrest : ∀ x ∈ rest, columnPartResolves p.document x = true :=
      fun x hx => h x (List.mem_cons_of_mem _ hx)
    unfold clearEach
    split
    · next hcol =>
      simp only
      unfold columnPartResolves at hid
      simp only [hcol, Bool.not_true, Bool.false_or] at hid
      have hd := highlightColumn_done p
        (((jsSplit id "_col_".toList)[0]?).getD "undefined".toList) (colIdxOf id) false hid
      have hp := highlightColumn_page p
        (((jsSplit id "_col_".toList)[0]?).getD "undefined".toList) (colIdxOf id) false
      split
      · next q heq =>
        rw [heq] at hd
        exact absurd hd (by simp [Outcome.threw])
      · next q heq =>
        rw [heq] at hp
        apply ih
        intro x hx
        have hdoc : q.document = p.document := hp.2
        simp only [hdoc]
        exact hrest x hx
    · exact ih _ hrest

theorem clearSelection_page (p : Page) :
    p.clearSelection.page.document = p.document := by
  unfold Page.clearSelection
  have h := (clearEach_page p p.state.selectedElements).2
  split
  · next q heq =>
    rw [heq] at h
    exact h
  · next q heq =>
    rw [heq] at h
    exact h

theorem clearSelection_done (p : Page)
    (h : ∀ id ∈ p.state.selectedElements, columnPartResolves p.document id = true) :
    ∃ q : Page, p.clearSelection = Outcome.done q ∧ q.state.selectedElements = [] ∧
      q.document = p.document := by
  unfold Page.clearSelection
  have hd := clearEach_done p p.state.selectedElements h
  have hp := (clearEach_page p p.state.selectedElements).2
  split
  · next q heq =>
    rw [heq] at hp
    exact ⟨_, rfl, rfl, hp⟩
  · next q heq =>
    rw [heq] at hd
    exact absurd hd (by simp [Outcome.threw])

theorem page_of_eq_done (o : Outcome) (q : Page) (h : o = Outcome.done q) : q = o.page := by
  rw [h]
  rfl

theorem page_of_eq_typeError (o : Outcome) (q : Page) (h : o = Outcome.typeError q) :
    q = o.page := by
  rw [h]
  rfl

/-- Whatever way the toggle of a column ends, the selection has been toggled. -/
theorem toggleColumn_page (p : Page) (tableId : JsString) (colIdx : Option Int) :
    (p.toggleColumn tableId colIdx).page.state.selectedElements =
        (if colIdOf tableId colIdx ∈ p.state.selectedElements then
          p.state.selectedElements.filter (fun x => x != colIdOf tableId colIdx)
        else p.state.selectedElements ++ [colIdOf tableId colIdx]) ∧
      (p.toggleColumn tableId colIdx).page.document = p.document := by
  unfold Page.toggleColumn
  simp only
  split
  · next q heq =>
    have hq := page_of_eq_typeError _ q heq
    constructor
    · show q.state.selectedElements = _
      rw [hq, (highlightColumn_page _ _ _ _).1]
      simp
    · show q.document = _
      rw [hq, (highlightColumn_page _ _ _ _).2]
  · next q heq =>
    have hq := page_of_eq_done _ q heq
    have h1 : q.state.selectedElements =
        (if colIdOf tableId colIdx ∈ p.state.selectedElements then
          p.state.selectedElements.filter (fun x => x != colIdOf tableId colIdx)
        else p.state.selectedElements ++ [colIdOf tableId colIdx]) := by
      rw [hq, (highlightColumn_page _ _ _ _).1]
      simp
    have h2 : q.document = p.document := by
      rw [hq, (highlightColumn_page _ _ _ _).2]
    split
    · exact ⟨h1, h2⟩
    · exact ⟨h1, h2⟩

theorem toFinset_filter_ne (l : List JsString) (a : JsString) :
    (l.filter (fun x => x != a)).toFinset = l.toFinset.erase a := by
  ext x
  simp only [List.mem_toFinset, List.mem_filter, bne_iff_ne, ne_eq, Finset.mem_erase]
  tauto

theorem toFinset_append_singleton (l : List JsString) (a : JsString) :
    (l ++ [a]).toFinset = insert a l.toFinset := by
  ext x
  simp only [List.mem_toFinset, List.mem_append, List.mem_singleton, Finset.mem_insert]
  tauto

theorem toggleOrReplace_additive (members : Finset JsString) (id : JsString) :
    toggleOrReplace members id true =
      if id ∈ members then members.erase id else insert id members := by
  simp [toggleOrReplace]

theorem toggleOrReplace_replace (members : Finset JsString) (id : JsString) :
    toggleOrReplace members id false = {id} := by
  simp [toggleOrReplace]

theorem handleSelection_members (p : Page) (isCtrl : Bool) (id : JsString)
    (hsel : ∀ x ∈ p.state.selectedElements, columnPartResolves p.document x = true) :
    (p.handleSelection isCtrl id).page.state.selectedElements.toFinset =
        toggleOrReplace p.state.selectedElements.toFinset id isCtrl ∧
      (p.handleSelection isCtrl id).page.document = p.document := by
  unfold Page.handleSelection
  cases isCtrl with
  | true =>
    rw [toggleOrReplace_additive]
    by_cases hid : id ∈ p.state.selectedElements
    · simp only [if_true, hid, List.mem_toFinset]
      exact ⟨toFinset_filter_ne _ _, rfl⟩
    · simp only [if_true, hid, List.mem_toFinset, if_false]
      refine ⟨?_, rfl⟩
      show (Debbie.addToSelection p.state id).selectedElements.toFinset = _
      unfold Debbie.addToSelection
      rw [if_neg hid]
      exact toFinset_append_singleton _ _
  | false =>
    rw [toggleOrReplace_replace]
    obtain ⟨q, hq, hempty, hdoc⟩ := clearSelection_done p hsel
    simp only [Bool.false_eq_true, if_false, hq]
    refine ⟨?_, hdoc⟩
    show (Debbie.addToSelection q.state id).selectedElements.toFinset = _
    unfold Debbie.addToSelection
    rw [hempty]
    simp

theorem handleColumnSelection_members (p : Page) (isCtrl : Bool) (tableId : JsString)
    (colIdx : Option Int)
    (hsel : ∀ x ∈ p.state.selectedElements, columnPartResolves p.document x = true) :
    (p.handleColumnSelection isCtrl tableId colIdx).page.state.selectedElements.toFinset =
        toggleOrReplace p.state.selectedElements.toFinset (colIdOf tableId colIdx) isCtrl ∧
      (p.handleColumnSelection isCtrl tableId colIdx).page.document = p.document := by
  unfold Page.handleColumnSelection
  cases isCtrl with
  | true =>
    rw [toggleOrReplace_additive]
    simp only [if_true]
    obtain ⟨h1, h2⟩ := toggleColumn_page p tableId colIdx
    refine ⟨?_, h2⟩
    rw [h1]
    by_cases hid : colIdOf tableId colIdx ∈ p.state.selectedElements
    · simp only [hid, if_true, List.mem_toFinset]
      exact toFinset_filter_ne _ _
    · simp only [hid, if_false, List.mem_toFinset]
      exact toFinset_append_singleton _ _
  | false =>
    rw [toggleOrReplace_replace]
    obtain ⟨q, hq, hempty, hdoc⟩ := clearSelection_done p hsel
    simp only [Bool.false_eq_true, if_false, hq]
    obtain ⟨h1, h2⟩ := toggleColumn_page q tableId colIdx
    refine ⟨?_, h2.trans hdoc⟩
    rw [h1, hempty]
    simp

theorem toggle_members (p : Page) (op : Toggle)
    (hsel : ∀ x ∈ p.state.selectedElements, columnPartResolves p.document x = true) :
    (p.toggle op).page.state.selectedElements.toFinset =
        toggleOrReplace p.state.selectedElements.toFinset op.id op.additive ∧
      (p.toggle op).page.document = p.document := by
  cases op with
  | element isCtrl id => exact handleSelection_members p isCtrl id hsel
  | column isCtrl tableId colIdx =>
    exact handleColumnSelection_members p isCtrl tableId colIdx hsel

theorem mem_toggleOrReplace (members : Finset JsString) (id : JsString) (additive : Bool)
    (x : JsString) (h : x ∈ toggleOrReplace members id additive) : x = id ∨ x ∈ members := by
  cases additive with
  | true =>
    rw [toggleOrReplace_additive] at h
    split at h
    · exact Or.inr (Finset.mem_of_mem_erase h)
    · exact Finset.mem_insert.mp h
  | false =>
    rw [toggleOrReplace_replace] at h
    exact Or.inl (Finset.mem_singleton.mp h)

/-- Replaying toggles on the page and on the reference model gives the same members. -/
theorem replay_members (ops : List Toggle) (p : Page)
    (hsel : ∀ x ∈ p.state.selectedElements, columnPartResolves p.document x = true)
    (hops : ∀ op ∈ ops, columnPartResolves p.document op.id = true) :
    (p.replay ops).state.selectedElements.toFinset =
      referenceReplay p.state.selectedElements.toFinset ops := by
  induction ops generalizing p with
  | nil => rfl
  | cons op rest ih =>
    obtain ⟨hm, hdoc⟩ := toggle_members p op hsel
    unfold Page.replay referenceReplay
    simp only [List.foldl_cons]
    rw [← hm]
    apply ih
    · intro x hx
      rw [hdoc]
      have hx' : x ∈ (p.toggle op).page.state.selectedElements.toFinset :=
        List.mem_toFinset.mpr hx
      rw [hm] at hx'
      rcases mem_toggleOrReplace _ _ _ _ hx' with h | h
      · rw [h]
        exact hops op (by simp)
      · exact hsel x (List.mem_toFinset.mp h)
    · intro o ho
      rw [hdoc]
      exact hops o (List.mem_cons_of_mem _ ho)

/-! ## Facts about the marking of a column -/

theorem mem_classListAdd (cl : ClassLists) (el : Node) (cls : JsString) (m : Node × JsString) :
    m ∈ classListAdd cl el cls ↔ m = (el, cls) ∨ m ∈ cl := by
  unfold classListAdd
  split
  · next h =>
    constructor
    · exact Or.inr
    · rintro (h1 | h1)
      · rw [h1]
        exact h
      · exact h1
  · simp only [List.mem_append, List.mem_singleton]
    tauto

theorem mem_classListRemove (cl : ClassLists) (el : Node) (cls : JsString)
    (m : Node × JsString) :
    m ∈ classListRemove cl el cls ↔ m ∈ cl ∧ m ≠ (el, cls) := by
  unfold classListRemove
  simp only [List.mem_filter, bne_iff_ne, ne_eq]

theorem highlight_step_add (A N E M : Prop) :
    (A ∧ E ∧ True ∨ ¬ (A ∧ E) ∧ (A ∧ N ∨ M)) ↔
      (A ∧ (N ∨ E) ∧ True ∨ ¬ (A ∧ (N ∨ E)) ∧ M) := by
  tauto

theorem highlight_step_remove (A N E M : Prop) :
    (A ∧ E ∧ False ∨ ¬ (A ∧ E) ∧ M ∧ ¬ (A ∧ N)) ↔
      (A ∧ (N ∨ E) ∧ False ∨ ¬ (A ∧ (N ∨ E)) ∧ M) := by
  tauto

/-- The loop of `highlightColumn` touches the `selected` marker of the cells
that exist in the column, one per row that has a cell there, and nothing else:
afterwards these cells carry the marker exactly if `active` is true, and every
other class of every element is as before. -/
theorem mem_highlightRows (t : Nat) (colIdx : Option Int) (active : Bool)
    (rows : List (List JsString)) (r0 : Nat) (cl : ClassLists) (n : Node) (cls : JsString) :
    (n, cls) ∈ highlightRows t colIdx active r0 rows cl ↔
      (cls = "selected".toList ∧
          (∃ i row c, rows[i]? = some row ∧ cellAt row colIdx = some c ∧
            n = Node.cell t (r0 + i) c) ∧
          active = true) ∨
        (¬ (cls = "selected".toList ∧
            ∃ i row c, rows[i]? = some row ∧ cellAt row colIdx = some c ∧
              n = Node.cell t (r0 + i) c) ∧
          (n, cls) ∈ cl) := by
  induction rows generalizing r0 cl with
  | nil => simp [highlightRows]
  | cons row rest ih =>
    have hex : (∃ i row' c, (row :: rest)[i]? = some row' ∧ cellAt row' colIdx = some c ∧
          n = Node.cell t (r0 + i) c) ↔
        ((∃ c, cellAt row colIdx = some c ∧ n = Node.cell t r0 c) ∨
          ∃ i row' c, rest[i]? = some row' ∧ cellAt row' colIdx = some c ∧
            n = Node.cell t (r0 + 1 + i) c) := by
      constructor
      · rintro ⟨i, row', c, hrow, hcell, hn⟩
        cases i with
        | zero =>
          simp only [List.getElem?_cons_zero, Option.some.injEq] at hrow
          subst hrow
          exact Or.inl ⟨c, hcell, by simpa using hn⟩
        | succ j =>
          simp only [List.getElem?_cons_succ] at hrow
          exact Or.inr ⟨j, row', c, hrow, hcell, by rw [hn]; congr 1; omega⟩
      · rintro (⟨c, hcell, hn⟩ | ⟨j, row', c, hrow, hcell, hn⟩)
        · exact ⟨0, row, c, by simp, hcell, by simpa using hn⟩
        · exact ⟨j + 1, row', c, by simpa using hrow, hcell, by rw [hn]; congr 1; omega⟩
    unfold highlightRows
    rw [ih, hex]
    generalize "selected".toList = sel
    cases hc : cellAt row colIdx with
    | none =>
      simp only [false_and, exists_false, false_or, reduceCtorEq]
    | some c0 =>
      have h0 : (∃ c, some c0 = some c ∧ n = Node.cell t r0 c) ↔ n = Node.cell t r0 c0 := by
        constructor
        · rintro ⟨c, hcc, hn⟩
          simp only [Option.some.injEq] at hcc
          rw [hcc]
          exact hn
        · intro hn
          exact ⟨c0, rfl, hn⟩
      have hpair : (n, cls) = (Node.cell t r0 c0, sel) ↔
          (cls = sel ∧ n = Node.cell t r0 c0) := by
        simp only [Prod.mk.injEq]
        tauto
      rw [h0]
      cases active with
      | true =>
        simp only [if_true, mem_classListAdd, hpair]
        exact highlight_step_add _ _ _ _
      | false =>
        simp only [Bool.false_eq_true, if_false, mem_classListRemove, ne_eq, hpair]
        exact highlight_step_remove _ _ _ _

/-! ## The handlers on the page and on the variables alone -/

theorem clearSelection_state (p q : Page) (h : p.clearSelection = Outcome.done q) :
    q.state = Debbie.clearSelection p.state := by
  unfold Page.clearSelection at h
  have hp := (clearEach_page p p.state.selectedElements).1
  split at h
  · next q' heq =>
    rw [heq] at hp
    simp only [Outcome.done.injEq] at h
    rw [← h]
    show Debbie.clearSelection q'.state = _
    have hq' : q'.state = p.state := hp
    rw [hq']
  · exact absurd h (by simp)

/-- A call of `handleSelection` that runs to its end leaves the variables of
the script as `handleSelection` on the variables alone says. -/
theorem handleSelection_state (p q : Page) (isCtrl : Bool) (id : JsString)
    (h : p.handleSelection isCtrl id = Outcome.done q) :
    q.state = Debbie.handleSelection p.state isCtrl id := by
  unfold Page.handleSelection at h
  unfold Debbie.handleSelection
  cases isCtrl with
  | true =>
    by_cases hid : id ∈ p.state.selectedElements
    · simp only [if_true, hid, Outcome.done.injEq] at h
      rw [← h]
      simp only [if_true, hid]
      rfl
    · simp only [if_true, hid, if_false, Outcome.done.injEq] at h
      rw [← h]
      simp only [if_true, hid, if_false]
      rfl
  | false =>
    simp only [Bool.false_eq_true, if_false] at h ⊢
    split at h
    · exact absurd h (by simp)
    · next q1 heq =>
      simp only [Outcome.done.injEq] at h
      rw [← h, ← clearSelection_state p q1 heq]
      rfl

/-- C12: take a page and a sequence of toggles (calls of `handleSelection` and
of `handleColumnSelection`, with or without ctrl) such that every id toggled,
and every member at the start, that contains `_col_` names before its first
`_col_` a table of the document or no element. Then the members of
`selectedElements` after the sequence are those the reference set model gives
when the sequence is replayed through it, also when a handler of the sequence
ends in a `TypeError`. In the reference model a toggle without ctrl yields
exactly the set of the one id, and a toggle with ctrl flips the membership of
the id and leaves every other id as it was. -/
theorem replay_members_eq_reference (p : Page) (ops : List Toggle)
    (hsel : ∀ x ∈ p.state.selectedElements, columnPartResolves p.document x = true)
    (hops : ∀ op ∈ ops, columnPartResolves p.document op.id = true) :
    (p.replay ops).state.selectedElements.toFinset =
        referenceReplay p.state.selectedElements.toFinset ops ∧
    (∀ (members : Finset JsString) (x : JsString), toggleOrReplace members x false = {x}) ∧
    (∀ (members : Finset JsString) (x y : JsString),
      y ∈ toggleOrReplace members x true ↔ (if y = x then y ∉ members else y ∈ members)) := by
  refine ⟨replay_members ops p hsel hops, toggleOrReplace_replace, ?_⟩
  intro members x y
  rw [toggleOrReplace_additive]
  by_cases hyx : y = x
  · subst hyx
    by_cases hy : y ∈ members <;> simp [hy]
  · by_cases hx : x ∈ members <;> simp [hx, hyx]

theorem replay_members_eq_reference_witness :
    ((Page.init
        { paragraphs := ["p_0".toList],
          tables := [{ id := "t_0".toList,
                       rows := [["t_0_r_0_c_0".toList, "t_0_r_0_c_1".toList],
                                ["t_0_r_1_c_0".toList, "t_0_r_1_c_1".toList]] }] }).replay
        [Toggle.element false "p_0".toList, Toggle.column true "t_0".toList (some 0),
         Toggle.element true "t_0_r_1_c_1".toList, Toggle.element true "p_0".toList,
         Toggle.column true "t_0".toList (some 1)]).state.selectedElements.toFinset =
      referenceReplay ∅
        [Toggle.element false "p_0".toList, Toggle.column true "t_0".toList (some 0),
         Toggle.element true "t_0_r_1_c_1".toList, Toggle.element true "p_0".toList,
         Toggle.column true "t_0".toList (some 1)] :=
  (replay_members_eq_reference
    (Page.init
      { paragraphs := ["p_0".toList],
        tables := [{ id := "t_0".toList,
                     rows := [["t_0_r_0_c_0".toList, "t_0_r_0_c_1".toList],
                              ["t_0_r_1_c_0".toList, "t_0_r_1_c_1".toList]] }] })
    [Toggle.element false "p_0".toList, Toggle.column true "t_0".toList (some 0),
     Toggle.element true "t_0_r_1_c_1".toList, Toggle.element true "p_0".toList,
     Toggle.column true "t_0".toList (some 1)]
    (by decide) (by decide)).1

/-- C13, at an input that breaks it: in a table of one column and two rows the
cell `t_0_r_0_c_0` is clicked, then the button of the column is clicked with
ctrl twice. After the first two steps the markers match the selection; the
third step takes the marker from every cell of the column, so the cell that is
still selected carries no `selected` marker. In the other order (the column
button is clicked, then a cell of the column with ctrl twice) the column is
still selected and its cell carries no marker. -/
theorem markers_drift_when_column_and_cell_overlap :
    markersMatch ((Page.init
        { paragraphs := [],
          tables := [{ id := "t_0".toList,
                       rows := [["t_0_r_0_c_0".toList], ["t_0_r_1_c_0".toList]] }] }).replay
        [Toggle.element false "t_0_r_0_c_0".toList,
         Toggle.column true "t_0".toList (some 0)]) = true ∧
    ((Page.init
        { paragraphs := [],
          tables := [{ id := "t_0".toList,
                       rows := [["t_0_r_0_c_0".toList], ["t_0_r_1_c_0".toList]] }] }).replay
        [Toggle.element false "t_0_r_0_c_0".toList,
         Toggle.column true "t_0".toList (some 0),
         Toggle.column true "t_0".toList (some 0)]).state.selectedElements =
      ["t_0_r_0_c_0".toList] ∧
    ((Page.init
        { paragraphs := [],
          tables := [{ id := "t_0".toList,
                       rows := [["t_0_r_0_c_0".toList], ["t_0_r_1_c_0".toList]] }] }).replay
        [Toggle.element false "t_0_r_0_c_0".toList,
         Toggle.column true "t_0".toList (some 0),
         Toggle.column true "t_0".toList (some 0)]).classes = [] ∧
    markersMatch ((Page.init
        { paragraphs := [],
          tables := [{ id := "t_0".toList,
                       rows := [["t_0_r_0_c_0".toList], ["t_0_r_1_c_0".toList]] }] }).replay
        [Toggle.element false "t_0_r_0_c_0".toList,
         Toggle.column true "t_0".toList (some 0),
         Toggle.column true "t_0".toList (some 0)]) = false ∧
    ((Page.init
        { paragraphs := [],
          tables := [{ id := "t_0".toList,
                       rows := [["t_0_r_0_c_0".toList], ["t_0_r_1_c_0".toList]] }] }).replay
        [Toggle.column false "t_0".toList (some 0),
         Toggle.element true "t_0_r_0_c_0".toList,
         Toggle.element true "t_0_r_0_c_0".toList]).state.selectedElements =
      ["t_0_col_0".toList] ∧
    ((Page.init
        { paragraphs := [],
          tables := [{ id := "t_0".toList,
                       rows := [["t_0_r_0_c_0".toList], ["t_0_r_1_c_0".toList]] }] }).replay
        [Toggle.column false "t_0".toList (some 0),
         Toggle.element true "t_0_r_0_c_0".toList,
         Toggle.element true "t_0_r_0_c_0".toList]).classes =
      [(Node.cell 0 1 0, "selected".toList), (Node.colBtn 0 0, "active".toList)] ∧
    markersMatch ((Page.init
        { paragraphs := [],
          tables := [{ id := "t_0".toList,
                       rows := [["t_0_r_0_c_0".toList], ["t_0_r_1_c_0".toList]] }] }).replay
        [Toggle.column false "t_0".toList (some 0),
         Toggle.element true "t_0_r_0_c_0".toList,
         Toggle.element true "t_0_r_0_c_0".toList]) = false := by
  decide

theorem highlightColumn_threw_iff (p : Page) (tableId : JsString) (colIdx : Option Int)
    (active : Bool) :
    (p.highlightColumn tableId colIdx active).threw = true ↔
      ∃ el, getElementById p.document tableId = some el ∧ ∀ t, el ≠ Node.table t := by
  unfold Page.highlightColumn
  split
  · next heq => simp [Outcome.threw, heq]
  · next t heq =>
    simp only [Outcome.threw, Bool.false_eq_true, heq, Option.some.injEq, false_iff]
    rintro ⟨el, hel, hnt⟩
    exact hnt t hel.symm
  · next el hnt heq =>
    simp only [Outcome.threw, heq, Option.some.injEq, true_iff]
    exact ⟨el, rfl, fun t ht => hnt t ht⟩


/-- C14, at an input that breaks it: the first row of table `t_0` has one cell
and the second row two, so column 1 has no button. With the cell `t_0_r_1_c_1`
selected, `selectCurrentColumn` clears the selection, selects the column and
marks its one cell, and is then stopped by a `TypeError` at the button that
does not exist; `handleColumnSelection` for a table that does not exist ends
the same way, and `clearSelection` does test the button before it uses it.
The marking itself is as claimed: `highlightColumn` is stopped only by an
element that has the id of the table and is not a table, never by a missing
table or cell, and its loop sets or takes the `selected` marker of exactly the
cells that exist in the column and changes no other class. -/
theorem selectCurrentColumn_typeError_without_button :
    (∀ (p : Page) (tableId : JsString) (colIdx : Option Int) (active : Bool),
      (p.highlightColumn tableId colIdx active).threw = true ↔
        ∃ el, getElementById p.document tableId = some el ∧ ∀ t, el ≠ Node.table t) ∧
    (∀ (t : Nat) (colIdx : Option Int) (active : Bool) (rows : List (List JsString))
        (cl : ClassLists) (n : Node) (cls : JsString),
      (n, cls) ∈ highlightRows t colIdx active 0 rows cl ↔
        (cls = "selected".toList ∧
            (∃ r row c, rows[r]? = some row ∧ cellAt row colIdx = some c ∧
              n = Node.cell t r c) ∧
            active = true) ∨
          (¬ (cls = "selected".toList ∧
              ∃ r row c, rows[r]? = some row ∧ cellAt row colIdx = some c ∧
                n = Node.cell t r c) ∧
            (n, cls) ∈ cl)) ∧
    ((Page.init
        { paragraphs := [],
          tables := [{ id := "t_0".toList,
                       rows := [["t_0_r_0_c_0".toList],
                                ["t_0_r_1_c_0".toList, "t_0_r_1_c_1".toList]] }] }).replay
        [Toggle.element false "t_0_r_1_c_1".toList]).selectCurrentColumn =
      Outcome.typeError
        { state := { State.init with selectedElements := ["t_0_col_1".toList] },
          document :=
            { paragraphs := [],
              tables := [{ id := "t_0".toList,
                           rows := [["t_0_r_0_c_0".toList],
                                    ["t_0_r_1_c_0".toList, "t_0_r_1_c_1".toList]] }] },
          classes := [(Node.cell 0 1 1, "selected".toList)] } ∧
    ((Page.init
        { paragraphs := [],
          tables := [{ id := "t_0".toList,
                       rows := [["t_0_r_0_c_0".toList],
                                ["t_0_r_1_c_0".toList, "t_0_r_1_c_1".toList]] }] }).handleColumnSelection
        false "t_9".toList (some 0)).threw = true ∧
    (Page.init
        { paragraphs := [],
          tables := [{ id := "t_0".toList,
                       rows := [["t_0_r_0_c_0".toList],
                                ["t_0_r_1_c_0".toList, "t_0_r_1_c_1".toList]] }] }).highlightColumn
        "t_9".toList (some 0) true =
      Outcome.done (Page.init
        { paragraphs := [],
          tables := [{ id := "t_0".toList,
                       rows := [["t_0_r_0_c_0".toList],
                                ["t_0_r_1_c_0".toList, "t_0_r_1_c_1".toList]] }] }) ∧
    ((Page.init
        { paragraphs := [],
          tables := [{ id := "t_0".toList,
                       rows := [["t_0_r_0_c_0".toList],
                                ["t_0_r_1_c_0".toList, "t_0_r_1_c_1".toList]] }] }).highlightColumn
        "t_0".toList (some 1) true).page.classes = [(Node.cell 0 1 1, "selected".toList)] ∧
    (((Page.init
        { paragraphs := [],
          tables := [{ id := "t_0".toList,
                       rows := [["t_0_r_0_c_0".toList],
                                ["t_0_r_1_c_0".toList, "t_0_r_1_c_1".toList]] }] }).replay
        [Toggle.element false "t_0_r_1_c_1".toList]).selectCurrentColumn.page.clearSelection).threw =
      false := by
  refine ⟨highlightColumn_threw_iff, fun t colIdx active rows cl n cls => ?_, ?_⟩
  · have h := mem_highlightRows t colIdx active rows 0 cl n cls
    simp only [zero_add] at h
    exact h
  · decide

/-! ## Saving on the page and on the variables alone -/

theorem markConfigured_page (p : Page) (id : JsString) :
    (p.markConfigured id).page.state = p.state ∧
      (p.markConfigured id).page.document = p.document := by
  unfold Page.markConfigured
  split
  · simp only
    split <;> exact ⟨rfl, rfl⟩
  · exact ⟨rfl, rfl⟩

theorem markConfigured_done (p : Page) (id : JsString)
    (h : columnPartResolves p.document id = true) :
    (p.markConfigured id).threw = false := by
  unfold Page.markConfigured
  split
  · next hcol =>
    unfold columnPartResolves at h
    simp only [hcol, Bool.not_true, Bool.false_or] at h
    simp only
    split
    · next hmarked =>
      exfalso
      split at hmarked
      · exact absurd hmarked (by simp)
      · exact absurd hmarked (by simp)
      · next el hnt heq =>
        rw [heq] at h
        cases el with
        | table t => exact hnt t rfl
        | paragraph i => exact Bool.false_ne_true h
        | cell t r c => exact Bool.false_ne_true h
        | colBtn t c => exact Bool.false_ne_true h
    · rfl
  · rfl

theorem saveEachOnPage_done (varName context groupId : JsString) (len : Nat)
    (arr : List JsString) (index : Nat) (p : Page)
    (h : ∀ id ∈ arr, columnPartResolves p.document id = true) :
    ∃ q : Page, saveEachOnPage varName context groupId len index arr p = Outcome.done q ∧
      q.state = { p.state with configuredSelections :=
        (saveEach varName context groupId len index arr p.state.configuredSelections) } ∧
      q.document = p.document := by
  induction arr generalizing index p with
  | nil => exact ⟨p, rfl, rfl, rfl⟩
  | cons id rest ih =>
    unfold saveEachOnPage
    simp only
    have hd := markConfigured_done
      ({ p with state := { p.state with configuredSelections :=
          (saveOne varName context groupId len p.state.configuredSelections id index) } } : Page)
      id (h id (by simp))
    have hp := markConfigured_page
      ({ p with state := { p.state with configuredSelections :=
          (saveOne varName context groupId len p.state.configuredSelections id index) } } : Page)
      id
    split
    · next q heq =>
      rw [heq] at hd
      exact absurd hd (by simp [Outcome.threw])
    · next q heq =>
      rw [heq] at hp
      have hstate : q.state = { p.state with configuredSelections :=
          (saveOne varName context groupId len p.state.configuredSelections id index) } := hp.1
      have hdoc : q.document = p.document := hp.2
      obtain ⟨r, hr, hrs, hrd⟩ := ih (index + 1) q (fun x hx => by
        rw [hdoc]
        exact h x (List.mem_cons_of_mem _ hx))
      refine ⟨r, hr, ?_, hrd.trans hdoc⟩
      rw [hrs, hstate]
      simp only [saveEach]

/-- When no selected id that contains `_col_` names, before its first `_col_`,
an element that is not a table, and no inherited key stops the grouping of the
list, `saveConfiguration()` on the page runs to its end and leaves the
variables of the script as `saveConfiguration` on the variables alone says. -/
theorem saveConfiguration_on_page (p : Page) (now : Nat)
    (h : ∀ id ∈ p.state.selectedElements, columnPartResolves p.document id = true)
    (hgroup : (groupedViewBuilt
      (Debbie.saveConfiguration p.state now).configuredSelections).isNone = false) :
    ∃ q : Page, p.saveConfiguration now = Outcome.done q ∧
      q.state = Debbie.saveConfiguration p.state now ∧ q.document = p.document := by
  by_cases hname : trim p.state.modalVarName = []
  · unfold Page.saveConfiguration
    simp only [hname, if_true]
    exact ⟨_, rfl, (saveConfigurationWith_store_of_blank arraySort p.state now hname).symm, rfl⟩
  · rw [saveConfiguration_store _ _ hname] at hgroup
    unfold Page.saveConfiguration Debbie.saveConfiguration saveConfigurationWith
    simp only [hname, if_false]
    obtain ⟨q, hq, hqs, hqd⟩ := saveEachOnPage_done (trim p.state.modalVarName)
      (trim p.state.modalContext) (numberToString 36 now)
      (arraySort selectionCompare p.state.selectedElements).length
      (arraySort selectionCompare p.state.selectedElements) 0 p
      (fun x hx => h x ((mem_arraySort _ _ _).mp hx))
    have hqstore : q.state.configuredSelections =
        saveEach (trim p.state.modalVarName) (trim p.state.modalContext)
          (numberToString 36 now) (arraySort selectionCompare p.state.selectedElements).length 0
          (arraySort selectionCompare p.state.selectedElements) p.state.configuredSelections := by
      rw [hqs]
    rw [hq]
    simp only [hqstore, hgroup, Bool.false_eq_true, if_false]
    obtain ⟨r, hr, _, hrd⟩ := clearSelection_done
      ({ q with state := updateConfiguredListUI q.state } : Page)
      (fun x hx => by
        have hx' : x ∈ p.state.selectedElements := by
          have : (updateConfiguredListUI q.state).selectedElements =
              p.state.selectedElements := by
            rw [updateConfiguredListUI_selection, hqs]
          rw [← this]
          exact hx
        show columnPartResolves q.document x = true
        rw [hqd]
        exact h x hx')
    rw [hr]
    refine ⟨_, rfl, ?_, hrd.trans hqd⟩
    have hrs := clearSelection_state _ r hr
    show Debbie.updateSelectionUI r.state = _
    rw [hrs]
    show Debbie.updateSelectionUI (Debbie.clearSelection (updateConfiguredListUI q.state)) = _
    rw [hqs]

end Debbie
